import Mathlib

/-!
# muxpress: routing, middleware chain, request and response views, application

A shallow embedding of `router.go`, `request.go`, `response.go`, `server.go`,
`application.go` and `util.go` of muxpress, and the properties of the middleware
chain, of static mount path normalisation, of the request and response views,
of `listen`, of the server's serving loops and of `runSync` that follow from
the code.

Conventions of the embedding

* A Go `string` is a Lean `String`; `strings.HasSuffix` and `strings.HasPrefix`
  compare the character sequences.
* The script engine (goja), `net/http`, `net/url`, `encoding/json` and
  `httprouter` are libraries outside the repository. They appear through the
  data they hand to the repository code (a decoded query mapping, a cookie
  list, a body stream, `json.Unmarshal` as an argument) and through the values
  the code builds with them (a script object is the ordered list of its own
  string-keyed properties, and `obj.Set` stores one for every name but
  `__proto__`, which an object inherits as an accessor).
* A Go panic is an `Except.error` result carrying the panic value.
* An `http.ResponseWriter` keeps the header map that `Header()` returns apart
  from the status and header fields that the first `WriteHeader` or `Write`
  fixes for the response delivered. `textproto.CanonicalMIMEHeaderKey`,
  `json.Marshal` and the operand formatting of `fmt` are arguments.
* `net.Listen` is an argument: the answer of the operating system to a bind,
  an error or the address bound. The serving loops a server started are kept
  with the address each was asked for.
* Goroutines and channels are steps on a state: a state holds the program point
  of every thread and the content of every channel, a step is one move of one
  thread, and a thread that is blocked has no step. A send on an unbuffered
  channel completes in the step of the receiver that takes the value.
  `errors.Is` and the error `srv.Shutdown` returns are arguments.
-/

namespace Muxpress

/-! ## Errors and panics (`util.go`) -/

/-- A Go `error` value as `throw` tells them apart: an error that already is a
script exception (`*goja.Exception`), or any other error. -/
inductive GoError where
  | exception (msg : String)
  | other (msg : String)
  deriving DecidableEq, Repr

/-- The value a panic carries: the script exception itself or the Go error
wrapped by `runtime.NewGoError` when raised by `throw`, the runtime error of
calling a nil function value or of a nil dereference, or a Go error that
`panic(err)` is called with as it is. -/
inductive Panic where
  | exception (msg : String)
  | goError (err : GoError)
  | nilCall
  | error (err : GoError)
  deriving DecidableEq, Repr

/-- Go `throw(runtime, err)`: panics with `err` itself when it is a script
exception and with `runtime.NewGoError(err)` otherwise. It never returns; the
result is the panic value. -/
def throw (err : GoError) : Panic :=
  match err with
  | .exception msg => .exception msg
  | e => .goError e

/-- Go `must(runtime, err)`: panics through `throw` when `err` is not nil. -/
def must (err : Option GoError) : Except Panic Unit :=
  match err with
  | some e => .error (throw e)
  | none => .ok ()

/-! ## Middleware chain (`router.go`) -/

/-- One observable action of a running middleware: it touches the request and
response views (the world `σ`), it invokes the continuation it was handed, or
it raises and so never returns. -/
inductive Step (σ : Type) where
  | effect (f : σ → σ)
  | next
  | raise (p : Panic)

/-- Go `type middleware func(req, res *goja.Object, next goja.Callable)`: the
function is given by the actions it performs when started in a world. -/
abbrev middleware (σ : Type) := σ → List (Step σ)

/-- Go `type middlewareChain []middleware`. -/
abbrev middlewareChain (σ : Type) := List (middleware σ)

/-- The closure `callOne` passes as `next`: its body is `nextCalled = true`
(and it returns `goja.Undefined(), nil`, which touches nothing else). -/
def nextClosure (_nextCalled : Bool) : Bool := true

/-- Runs the actions of a middleware against the world and the captured
`nextCalled` variable; stops at a raise, reporting the panic value. -/
def runSteps {σ : Type} : List (Step σ) → σ → Bool → σ × Bool × Option Panic
  | [], w, nextCalled => (w, nextCalled, none)
  | .effect f :: rest, w, nextCalled => runSteps rest (f w) nextCalled
  | .next :: rest, w, nextCalled => runSteps rest w (nextClosure nextCalled)
  | .raise p :: _, w, nextCalled => (w, nextCalled, some p)

/-- Go `middlewareChain.callOne`: starts with `nextCalled := false`, runs the
middleware with the closure that sets it, and returns `nextCalled`; a panic of
the middleware propagates. The world the middleware left is returned too. -/
def middlewareChain.callOne {σ : Type} (w : σ) (mware : middleware σ) :
    σ × Except Panic Bool :=
  let nextCalled := false
  match runSteps (mware w) w nextCalled with
  | (w', nextCalled, none) => (w', .ok nextCalled)
  | (w', _, some p) => (w', .error p)

/-- One executed middleware in the record of a dispatch: the function that was
invoked and what `callOne` got from it. -/
structure Invocation (σ : Type) where
  mware : middleware σ
  outcome : Except Panic Bool

/-- What a dispatch did: the world it left, the middlewares it executed in
execution order, and the panic that ended it, if any. -/
structure Run (σ : Type) where
  world : σ
  log : List (Invocation σ)
  panic : Option Panic

/-- Go `make([]middleware, n)`: `n` nil function values. -/
def make (σ : Type) (n : Nat) : List (Option (middleware σ)) :=
  List.replicate n none

/-- Go `copy(dst[off:], src)`: overwrites the elements of `dst` from offset
`off` with those of `src`, as many as fit; the length of `dst` is unchanged. -/
def copy {α : Type} (dst : List α) (off : Nat) (src : List α) : List α :=
  dst.take off ++ src.take (dst.length - off) ++ dst.drop (off + src.length)

/-- The slice `all` that `middlewareChain.call` builds before its loop. -/
def middlewareChain.all {σ : Type} (chain : middlewareChain σ)
    (cascade : List (middleware σ)) : List (Option (middleware σ)) :=
  let all := make σ (chain.length + cascade.length)
  let all := copy all 0 (chain.map some)
  copy all chain.length (cascade.map some)

/-- The `for _, mware := range all` loop of `middlewareChain.call`: breaks at the
first middleware for which `callOne` returns false; a panic (of the middleware,
or of calling a nil function value) ends the loop and propagates. -/
def middlewareChain.loop {σ : Type} : List (Option (middleware σ)) → σ → Run σ
  | [], w => ⟨w, [], none⟩
  | none :: _, w => ⟨w, [], some .nilCall⟩
  | some mware :: rest, w =>
    match middlewareChain.callOne w mware with
    | (w', .ok true) =>
      let r := middlewareChain.loop rest w'
      ⟨r.world, ⟨mware, .ok true⟩ :: r.log, r.panic⟩
    | (w', .ok false) => ⟨w', [⟨mware, .ok false⟩], none⟩
    | (w', .error p) => ⟨w', [⟨mware, .error p⟩], some p⟩

/-- Go `middlewareChain.call(req, res, cascade...)`. -/
def middlewareChain.call {σ : Type} (chain : middlewareChain σ) (w : σ)
    (cascade : List (middleware σ)) : Run σ :=
  middlewareChain.loop (middlewareChain.all chain cascade) w

/-! ## Router (`router.go`) -/

/-- One entry of the routing table: the method and path pattern handed to
`httprouter`, and the middlewares captured by the handler closure that
`handleMethod` registers. The closure holds the router by pointer, so the entry
stores no copy of the global chain. -/
structure route (σ : Type) where
  method : String
  path : String
  middlewares : List (middleware σ)

/-- Go `type router struct`: the routing table and the global middlewares.
(The runner and the filesystem play no part in the chain.) -/
structure router (σ : Type) where
  routes : List (route σ)
  middlewares : middlewareChain σ

/-- Go `newRouter`: an empty table and `make(middlewareChain, 0)`. -/
def newRouter (σ : Type) : router σ :=
  { routes := [], middlewares := [] }

/-- Go `router.use`: `r.middlewares = append(r.middlewares, middlewares...)`. -/
def router.use {σ : Type} (r : router σ) (middlewares : List (middleware σ)) :
    router σ :=
  { r with middlewares := r.middlewares ++ middlewares }

/-- Go `router.handle`: inside the unit of work given to `runSync` it calls
`r.middlewares.call(req, res, middlewares...)` on the router as it is when the
request arrives. The runner is taken to run the unit of work once, in place. -/
def router.handle {σ : Type} (r : router σ) (w : σ)
    (middlewares : List (middleware σ)) : Run σ :=
  r.middlewares.call w middlewares

/-- Go `router.handleMethod`: registers under `method` and `path` a handler that
calls `r.handle` with the given middlewares. -/
def router.handleMethod {σ : Type} (r : router σ) (method path : String)
    (middlewares : List (middleware σ)) : router σ :=
  { r with routes := r.routes ++ [⟨method, path, middlewares⟩] }

/-- A request that the routing table resolved to the entry `rt`: runs the
handler closure registered for it against the current router. -/
def router.dispatch {σ : Type} (r : router σ) (rt : route σ) (w : σ) : Run σ :=
  r.handle w rt.middlewares

/-- One call of the set-up phase of a router. -/
inductive Setup (σ : Type) where
  | use (middlewares : List (middleware σ))
  | handleMethod (method path : String) (middlewares : List (middleware σ))

/-- Performs one set-up call on the router. -/
def router.setup {σ : Type} (r : router σ) : Setup σ → router σ
  | .use ms => r.use ms
  | .handleMethod method path ms => r.handleMethod method path ms

/-- The middlewares handed to the `use` calls of a set-up sequence, in call
order. -/
def usedBy {σ : Type} : List (Setup σ) → List (middleware σ)
  | [] => []
  | .use ms :: rest => ms ++ usedBy rest
  | .handleMethod _ _ _ :: rest => usedBy rest

/-- The routes registered by the `handleMethod` calls of a set-up sequence. -/
def routedBy {σ : Type} : List (Setup σ) → List (route σ)
  | [] => []
  | .use _ :: rest => routedBy rest
  | .handleMethod method path ms :: rest => ⟨method, path, ms⟩ :: routedBy rest

/-- A middleware that notes its name in the world and invokes `next`. -/
def passing (name : String) : middleware (List String) :=
  fun _ => [.effect (· ++ [name]), .next]

/-- A middleware that notes its name in the world and does not invoke `next`. -/
def ending (name : String) : middleware (List String) :=
  fun _ => [.effect (· ++ [name])]

/-! ## Static mount path (`router.go`) -/

/-- Go `strings.HasSuffix`. -/
def HasSuffix (s suffix : String) : Bool :=
  suffix.data.isSuffixOf s.data

/-- Go `strings.HasPrefix`. -/
def HasPrefix (s pre : String) : Bool :=
  pre.data.isPrefixOf s.data

/-- Go `router.fixpath`. -/
def router.fixpath (path : String) : String :=
  if HasSuffix path "/*filepath" then
    path
  else
    let path := if !HasSuffix path "/" then path ++ "/" else path
    path ++ "*filepath"

/-! ## Script values -/

/-- A Go `float64`, by its IEEE-754 bit pattern. -/
structure float64 where
  bits : Nat
  deriving DecidableEq, Repr

/-- A script value of the engine. An object is its own properties in insertion
order. -/
inductive Value where
  | undefined
  | null
  | bool (b : Bool)
  | int (i : Int)
  | float (f : float64)
  | string (s : String)
  | bytes (b : List UInt8)
  | array (elems : List Value)
  | object (props : List (String × Value))

/-- A script object (`*goja.Object`): its own properties in insertion order. What
an object inherits from its prototype is not part of it. -/
abbrev Object := List (String × Value)

/-- Go `runtime.NewObject()`. -/
def NewObject : Object := []

/-- Go `obj.Get(name)`, as far as the own properties decide it: the value of the
own property, and `none` when the object has no own property of that name
(the engine then goes on to the prototype). -/
def Object.Get (obj : Object) (name : String) : Option Value :=
  (obj.find? (fun p => p.1 == name)).map Prod.snd

/-- Storing an own property: overwrites the property when the object has it and
adds it after the others when it has not. -/
def Object.store : Object → String → Value → Object
  | [], name, value => [(name, value)]
  | (k, x) :: rest, name, value =>
    if k = name then (k, value) :: rest else (k, x) :: Object.store rest name value

/-- Go `obj.Set(name, value)` on an object made by `runtime.NewObject()`: stores
the own property, except under the name `__proto__`. That name is no own
property: the object inherits it from `Object.prototype` as an accessor, and
`Set` runs the accessor, which stores nothing in the object (it replaces the
prototype when the value is an object and does nothing for any other value). -/
def Object.Set (obj : Object) (name : String) (value : Value) : Object :=
  if name = "__proto__" then obj else obj.store name value

/-- Go `mustSet(runtime, obj, name, value)`: `must(runtime, obj.Set(name, value))`.
Setting a property of a plain object returns no error, so it does not panic. -/
def mustSet (obj : Object) (name : String) (value : Value) : Object :=
  Object.Set obj name value

/-- Go `runtime.NewArray(items...)`. -/
def NewArray (items : List Value) : Value := .array items

/-! ## Derived request fields (`request.go`) -/

/-- Go `url.Values`, a `map[string][]string`: its entries in the order in which
the `range` loop visits them. Keys of a map are distinct. -/
abbrev Values := List (String × List String)

/-- Go `wrapValues`. -/
def wrapValues (values : Values) : Object :=
  let out := NewObject
  if values.length = 0 then
    out
  else
    values.foldl (fun out (entry : String × List String) =>
      let key := entry.1
      let value := entry.2
      if h : value.length = 1 then
        mustSet out key (.string value[0])
      else
        let all := value.foldl (fun all str => all ++ [Value.string str]) []
        mustSet out key (NewArray all)) out

/-- Go `httprouter.Param`. -/
structure Param where
  Key : String
  Value : String
  deriving DecidableEq, Repr

/-- Go `wrapParams`. -/
def wrapParams (params : List Param) : Object :=
  params.foldl (fun out param => mustSet out param.Key (.string param.Value)) NewObject

/-- Go `http.Cookie`, as far as `wrapCookies` reads it. -/
structure Cookie where
  Name : String
  Value : String
  deriving DecidableEq, Repr

/-- Go `wrapCookies`. -/
def wrapCookies (cookies : List Cookie) : Object :=
  cookies.foldl (fun out c => mustSet out c.Name (.string c.Value)) NewObject

/-- The values `encoding/json` stores into an `interface{}`. -/
inductive GoValue where
  | nil
  | bool (b : Bool)
  | float64 (f : float64)
  | string (s : String)
  | slice (elems : List GoValue)
  | map (entries : List (String × GoValue))

/-- A Go `map[string]interface{}`: `none` is the nil map. -/
abbrev GoMap := Option (List (String × GoValue))

/-- Go `json.Unmarshal(data, &out)` for `out` of type `map[string]interface{}`,
from the standard library: from the bytes and the current map it gives the map
it leaves and the error it returns. -/
abbrev Unmarshal := List UInt8 → GoMap → GoMap × Option GoError

mutual
/-- Go `runtime.ToValue` on the values `encoding/json` produces. -/
def ToValue : GoValue → Value
  | .nil => .null
  | .bool b => .bool b
  | .float64 f => .float f
  | .string s => .string s
  | .slice elems => .array (ToValues elems)
  | .map entries => .object (ToProps entries)
/-- Conversion of the elements of a slice. -/
def ToValues : List GoValue → List Value
  | [] => []
  | v :: rest => ToValue v :: ToValues rest
/-- Conversion of the entries of a map. -/
def ToProps : List (String × GoValue) → List (String × Value)
  | [] => []
  | (k, v) :: rest => (k, ToValue v) :: ToProps rest
end

/-- Go `runtime.ToValue(out)` for `out` of type `map[string]interface{}`: the nil
map converts to `null`, any other map to an object with its entries. -/
def ToValueMap (out : GoMap) : Value :=
  match out with
  | none => .null
  | some entries => .object (ToProps entries)

/-- Go `http.Header`, a `map[string][]string` under canonical keys. -/
abbrev Header := List (String × List String)

/-- Go `Header.Get(key)` for a key in canonical form: the first value stored
under the key, the empty string when there is none. -/
def Header.Get (h : Header) (key : String) : String :=
  match h.find? (fun e => e.1 == key) with
  | some (_, v :: _) => v
  | _ => ""

/-- The request body stream (`io.ReadCloser`): the bytes not read yet, the
error the stream fails with once they are delivered (`none`: end of file), how
many times it was drained, and whether it was closed. -/
structure Body where
  data : List UInt8
  err : Option GoError
  reads : Nat
  closed : Bool
  deriving DecidableEq, Repr

/-- Go `ioutil.ReadAll(body)`: drains the stream; gives the bytes read and the
error met, nil at end of file. -/
def ReadAll (body : Body) : Body × List UInt8 × Option GoError :=
  ({ body with data := [], reads := body.reads + 1 }, body.data, body.err)

/-- Go `body.Close()`. -/
def Body.Close (body : Body) : Body :=
  { body with closed := true }

/-- Go `*http.Request`, as far as the request view reads it. `Query`, `Cookies`
and `Params` hold what `req.URL.Query()`, `req.Cookies()` and
`httprouter.ParamsFromContext(req.Context())` return. -/
structure Request where
  Method : String
  Host : String
  Path : String
  Scheme : String
  Header : Header
  ContentLength : Int
  Body : Body
  Query : Values
  Cookies : List Cookie
  Params : List Param

/-- Go `wrapBody`. The deferred `req.Body.Close()` runs on each way out of the
part below the first `return`. -/
def wrapBody (unmarshal : Unmarshal) (req : Request) : Request × Except Panic Value :=
  if req.ContentLength == 0
      || !HasPrefix (Header.Get req.Header "Content-Type") "application/json" then
    (req, .ok .undefined)
  else
    let (body, bin, err) := ReadAll req.Body
    let req := { req with Body := body.Close }
    match err with
    | some e => (req, .error (throw e))
    | none =>
      let out : GoMap := some []
      let (out, err) := unmarshal bin out
      match must err with
      | .error p => (req, .error p)
      | .ok () => (req, .ok (ToValueMap out))

/-! ## Request view and its caches (`request.go`) -/

/-- How many times each of the four closures handed to the `sync.Once` fields of
a request view has run (instrumentation, not a field of the Go struct). -/
structure Runs where
  params : Nat
  query : Nat
  cookies : Nat
  body : Nat
  deriving DecidableEq, Repr

/-- Go `type request struct`. A `sync.Once` is its done flag; a nil pointer or
nil interface value is `none`. -/
structure request where
  Request : Request
  paramsOnce : Bool
  paramsObj : Option Object
  queryOnce : Bool
  queryObj : Option Object
  cookiesOnce : Bool
  cookiesObj : Option Object
  bodyOnce : Bool
  bodyValue : Option Value
  runs : Runs

/-- Go `newRequest`: every field but the wrapped request has its zero value. -/
def newRequest (req : Request) : request :=
  { Request := req
    paramsOnce := false, paramsObj := none
    queryOnce := false, queryObj := none
    cookiesOnce := false, cookiesObj := none
    bodyOnce := false, bodyValue := none
    runs := ⟨0, 0, 0, 0⟩ }

/-- Go `sync.Once.Do(f)`: runs `f` when the once is not done yet; the once is
done afterwards, also when `f` panicked. Gives the done flag, the state `f`
left and the panic of `f`, if any. -/
def onceDo {σ : Type} (done : Bool) (f : σ → σ × Option Panic) (s : σ) :
    Bool × σ × Option Panic :=
  if done then
    (done, s, none)
  else
    let (s, p) := f s
    (true, s, p)

/-- Go `request.params`. -/
def request.params (req : request) : request × Except Panic (Option Object) :=
  let (done, req, p) := onceDo req.paramsOnce (fun req =>
    ({ req with
        paramsObj := some (wrapParams req.Request.Params)
        runs := { req.runs with params := req.runs.params + 1 } }, none)) req
  let req := { req with paramsOnce := done }
  match p with
  | some p => (req, .error p)
  | none => (req, .ok req.paramsObj)

/-- Go `request.query`. -/
def request.query (req : request) : request × Except Panic (Option Object) :=
  let (done, req, p) := onceDo req.queryOnce (fun req =>
    ({ req with
        queryObj := some (wrapValues req.Request.Query)
        runs := { req.runs with query := req.runs.query + 1 } }, none)) req
  let req := { req with queryOnce := done }
  match p with
  | some p => (req, .error p)
  | none => (req, .ok req.queryObj)

/-- Go `request.cookies`. -/
def request.cookies (req : request) : request × Except Panic (Option Object) :=
  let (done, req, p) := onceDo req.cookiesOnce (fun req =>
    ({ req with
        cookiesObj := some (wrapCookies req.Request.Cookies)
        runs := { req.runs with cookies := req.runs.cookies + 1 } }, none)) req
  let req := { req with cookiesOnce := done }
  match p with
  | some p => (req, .error p)
  | none => (req, .ok req.cookiesObj)

/-- Go `request.body`. -/
def request.body (unmarshal : Unmarshal) (req : request) :
    request × Except Panic (Option Value) :=
  let (done, req, p) := onceDo req.bodyOnce (fun req =>
    let req := { req with runs := { req.runs with body := req.runs.body + 1 } }
    match wrapBody unmarshal req.Request with
    | (r, .ok v) => ({ req with Request := r, bodyValue := some v }, none)
    | (r, .error p) => ({ req with Request := r }, some p)) req
  let req := { req with bodyOnce := done }
  match p with
  | some p => (req, .error p)
  | none => (req, .ok req.bodyValue)

/-- The four cached properties of a request view. -/
inductive Field where
  | params
  | query
  | cookies
  | body
  deriving DecidableEq, Repr

/-- One read of a cached property through its getter; an object is given as
the script value it is. -/
def request.read (unmarshal : Unmarshal) (req : request) (f : Field) :
    request × Except Panic (Option Value) :=
  match f with
  | .params => let (req, r) := req.params; (req, r.map (Option.map Value.object))
  | .query => let (req, r) := req.query; (req, r.map (Option.map Value.object))
  | .cookies => let (req, r) := req.cookies; (req, r.map (Option.map Value.object))
  | .body => req.body unmarshal

/-- A sequence of reads on one request view, with the result of each. -/
def request.reads (unmarshal : Unmarshal) :
    request → List Field → request × List (Except Panic (Option Value))
  | req, [] => (req, [])
  | req, f :: rest =>
    let (req, r) := req.read unmarshal f
    let (req, rs) := request.reads unmarshal req rest
    (req, r :: rs)

/-- Whether the `sync.Once` of a cached property is done. -/
def request.done (req : request) : Field → Bool
  | .params => req.paramsOnce
  | .query => req.queryOnce
  | .cookies => req.cookiesOnce
  | .body => req.bodyOnce

/-- The cached field of a property, as the script value its getter returns. -/
def request.cache (req : request) : Field → Option Value
  | .params => req.paramsObj.map Value.object
  | .query => req.queryObj.map Value.object
  | .cookies => req.cookiesObj.map Value.object
  | .body => req.bodyValue

/-- How many times the computation behind a property has run. -/
def request.runsOf (req : request) : Field → Nat
  | .params => req.runs.params
  | .query => req.runs.query
  | .cookies => req.runs.cookies
  | .body => req.runs.body

/-- A stand-in for `json.Unmarshal` that knows three inputs: the bytes of `{}`
leave the map as it is, the bytes of `null` leave the nil map, and anything
else is reported as an error with the map untouched. -/
def sampleUnmarshal : Unmarshal := fun bin out =>
  if bin = [123, 125] then (out, none)
  else if bin = [110, 117, 108, 108] then (none, none)
  else (out, some (.other "invalid character"))

/-- A request without body and without headers (`httptest.NewRequest` with a nil
body). -/
def emptyRequest : Request :=
  { Method := "GET", Host := "example.com", Path := "/", Scheme := ""
    Header := [], ContentLength := 0
    Body := { data := [], err := none, reads := 0, closed := false }
    Query := [], Cookies := [], Params := [] }

/-- A JSON request whose body stream fails on the first read. -/
def failingRequest : Request :=
  { emptyRequest with
    Header := [("Content-Type", ["application/json"]), ("Content-Length", ["1"])]
    ContentLength := 1
    Body := { data := [], err := some (.other "foo"), reads := 0, closed := false } }

/-! ## Response writer (`net/http`) and response view (`response.go`) -/

/-- Go `textproto.CanonicalMIMEHeaderKey`, from the standard library, under which
`http.Header` files every field name. -/
abbrev Canonical := String → String

/-- The values a header map holds under a key as stored; none when the key is
not in the map. -/
def Header.lookup (h : Header) (key : String) : List String :=
  match h.find? (fun e => e.1 == key) with
  | some e => e.2
  | none => []

/-- The map assignment `h[key] = values`. -/
def Header.store : Header → String → List String → Header
  | [], key, values => [(key, values)]
  | (k, vs) :: rest, key, values =>
    if k = key then (k, values) :: rest else (k, vs) :: Header.store rest key values

/-- Go `Header.Values(key)`: all values filed under the canonical form of the
key. -/
def Header.Values (canonical : Canonical) (h : Header) (key : String) : List String :=
  h.lookup (canonical key)

/-- Go `Header.Set(key, value)`: the canonical key holds the single value. -/
def Header.Set (canonical : Canonical) (h : Header) (key value : String) : Header :=
  h.store (canonical key) [value]

/-- Go `Header.Add(key, value)`: the value is appended to those the canonical
key holds. -/
def Header.Add (canonical : Canonical) (h : Header) (key value : String) : Header :=
  h.store (canonical key) (h.lookup (canonical key) ++ [value])

/-- Go `http.ResponseWriter`, by the contract of `net/http`: `header` is the map
that `Header()` returns; the first `WriteHeader` (or `Write`) fixes the status
and the header fields of the response delivered, kept in `code` and `sent`,
and later changes of the map do not reach the response; `body` is what was
written; `writeErr` is the error that writing meets, if any. Informational
status codes are not modelled. -/
structure ResponseWriter where
  header : Header
  wroteHeader : Bool
  code : Int
  sent : Header
  body : List UInt8
  writeErr : Option GoError
  deriving DecidableEq, Repr

/-- Go `httptest.NewRecorder()`: nothing written, status 200 until set. -/
def NewRecorder : ResponseWriter :=
  { header := [], wroteHeader := false, code := 200, sent := [], body := []
    writeErr := none }

/-- Go `ResponseWriter.WriteHeader(code)`: the first call fixes the status and
the header fields to deliver; a later call changes nothing. -/
def ResponseWriter.WriteHeader (w : ResponseWriter) (code : Int) : ResponseWriter :=
  if w.wroteHeader then w
  else { w with wroteHeader := true, code := code, sent := w.header }

/-- Go `ResponseWriter.Write(b)`: writes the header with status 200 first when
it was not written yet, then the bytes; gives the error met. -/
def ResponseWriter.Write (w : ResponseWriter) (b : List UInt8) :
    ResponseWriter × Option GoError :=
  let w := if w.wroteHeader then w else w.WriteHeader 200
  match w.writeErr with
  | some err => (w, some err)
  | none => ({ w with body := w.body ++ b }, none)

/-- A Go `interface{}` argument by its dynamic type: a `string`, a `[]byte`, or a
value of any other type, taken from `α`. -/
inductive Any (α : Type) where
  | string (s : String)
  | bytes (b : List UInt8)
  | other (v : α)

/-- The type assertion `data.(string)`. -/
def Any.asString {α : Type} : Any α → Option String
  | .string s => some s
  | _ => none

/-- The type assertion `data.([]byte)`. -/
def Any.asBytes {α : Type} : Any α → Option (List UInt8)
  | .bytes b => some b
  | _ => none

/-- Go `json.Marshal(v)`, from the standard library: the encoding and the error. -/
abbrev Marshal (α : Type) := Any α → List UInt8 × Option GoError

/-- The conversion `[]byte(s)` of a Go string: its UTF-8 bytes. -/
def bytesOf (s : String) : List UInt8 := s.toUTF8.data.toList

/-- The part of `fmt` that deals with operands, from the standard library.
`verb` is what `Sprintf` does at a `%`: from the format text after the `%`, the
operands and the count of operands used, it gives the output, the number of
characters of that text it consumed, and the new count. `extra` is the note
written for the operands left unused at the end. -/
structure Formatter (α : Type) where
  verb : List Char → List (Any α) → Nat → String × Nat × Nat
  extra : List (Any α) → Nat → String

/-- The loop of Go `fmt.Sprintf`: text up to a `%` is copied, a `%` is handed to
the formatter together with what follows it, and the characters the formatter
consumed (`skip`) are passed over. -/
def doPrintf {α : Type} (fmtr : Formatter α) (a : List (Any α)) :
    List Char → Nat → Nat → String
  | [], _, argNum => if argNum < a.length then fmtr.extra a argNum else ""
  | _ :: rest, skip + 1, argNum => doPrintf fmtr a rest skip argNum
  | c :: rest, 0, argNum =>
    if c = '%' then
      let (out, used, argNum) := fmtr.verb rest a argNum
      out ++ doPrintf fmtr a rest used argNum
    else
      String.singleton c ++ doPrintf fmtr a rest 0 argNum

/-- Go `fmt.Sprintf(format, a...)`. -/
def Sprintf {α : Type} (fmtr : Formatter α) (format : String) (a : List (Any α)) : String :=
  doPrintf fmtr a format.data 0 0

/-- The rules of `fmt` for a `%` that finds no operand and has no flags: `%%` is
a percent sign, a `%` at the end of the format gives `%!(NOVERB)`, and a verb
`c` gives `%!c(MISSING)`. It stands in for the formatter where no operand is
passed. -/
def missingOperand (α : Type) : Formatter α :=
  { verb := fun rest _ argNum =>
      match rest with
      | [] => ("%!(NOVERB)", 0, argNum)
      | c :: _ =>
        if c = '%' then ("%", 1, argNum)
        else ("%!" ++ String.singleton c ++ "(MISSING)", 1, argNum)
    extra := fun _ _ => "" }

/-- Go `type response struct`: the wrapped writer (the runtime plays no part). -/
abbrev response := ResponseWriter

/-- Go `response.json`. -/
def response.json {α : Type} (canonical : Canonical) (marshal : Marshal α)
    (resp : response) (v : Any α) : response × Except Panic Unit :=
  let resp := { resp with
    header := Header.Set canonical resp.header "Content-Type" "application/json; charset=utf-8" }
  let (b, err) := marshal v
  match must err with
  | .error p => (resp, .error p)
  | .ok () =>
    let (resp, err) := resp.Write b
    match must err with
    | .error p => (resp, .error p)
    | .ok () => (resp, .ok ())

/-- Go `response.textf`. -/
def response.textf {α : Type} (canonical : Canonical) (fmtr : Formatter α)
    (resp : response) (format : String) (v : List (Any α)) : response × Except Panic Unit :=
  let resp := { resp with
    header := Header.Set canonical resp.header "Content-Type" "text/plain; charset=utf-8" }
  let (resp, err) := resp.Write (bytesOf (Sprintf fmtr format v))
  match must err with
  | .error p => (resp, .error p)
  | .ok () => (resp, .ok ())

/-- Go `response.html`. -/
def response.html (canonical : Canonical) (resp : response) (b : List UInt8) :
    response × Except Panic Unit :=
  let resp := { resp with
    header := Header.Set canonical resp.header "Content-Type" "text/html; charset=utf-8" }
  let (resp, err) := resp.Write b
  match must err with
  | .error p => (resp, .error p)
  | .ok () => (resp, .ok ())

/-- Go `response.binary`. -/
def response.binary (canonical : Canonical) (resp : response) (b : List UInt8) :
    response × Except Panic Unit :=
  let resp := { resp with
    header := Header.Set canonical resp.header "Content-Type" "application/octet-stream" }
  let (resp, err) := resp.Write b
  match must err with
  | .error p => (resp, .error p)
  | .ok () => (resp, .ok ())

/-- Go `response.send`: the type switch on `data`. -/
def response.send {α : Type} (canonical : Canonical) (marshal : Marshal α)
    (resp : response) (data : Any α) : response × Except Panic Unit :=
  match data.asString with
  | some val => response.html canonical resp (bytesOf val)
  | none =>
    match data.asBytes with
    | some val => response.binary canonical resp val
    | none => response.json canonical marshal resp data

/-- The dispatch of `send` as the specification words it: a string goes the
html way, raw bytes go the binary way, anything else goes the json way. -/
def sendBySpec {α : Type} (canonical : Canonical) (marshal : Marshal α)
    (resp : response) : Any α → response × Except Panic Unit
  | .string s => response.html canonical resp (bytesOf s)
  | .bytes b => response.binary canonical resp b
  | .other v => response.json canonical marshal resp (.other v)

/-- Go `response.status`. -/
def response.status (resp : response) (code : Int) : response :=
  resp.WriteHeader code

/-- Go `response.contentType`. -/
def response.contentType (canonical : Canonical) (resp : response) (mime : String) :
    response :=
  { resp with header := Header.Set canonical resp.header "Content-Type" mime }

/-- Go `response.vary`. -/
def response.vary (canonical : Canonical) (resp : response) (header : String) : response :=
  { resp with header := Header.Set canonical resp.header "Vary" header }

/-- Go `response.set`. -/
def response.set (canonical : Canonical) (resp : response) (field value : String) :
    response :=
  { resp with header := Header.Set canonical resp.header field value }

/-- Go `response.append`. -/
def response.append (canonical : Canonical) (resp : response) (field value : String) :
    response :=
  { resp with header := Header.Add canonical resp.header field value }

/-- Go `response.redirect`: `WriteHeader(code)`, then `Header().Set("Location", loc)`. -/
def response.redirect (canonical : Canonical) (resp : response) (code : Int)
    (loc : String) : response :=
  let resp := resp.WriteHeader code
  { resp with header := Header.Set canonical resp.header "Location" loc }

/-! ## The echo route of the tests -/

/-- The two views of one request being handled, as `router.handle` wraps them. -/
structure Exchange where
  req : request
  res : response

/-- Go `Value.String()` on the values a query object holds: a string is
itself, an array of strings is its elements joined by commas. -/
def queryText : Value → String
  | .string s => s
  | .array elems => ",".intercalate (elems.map (fun e =>
      match e with
      | .string s => s
      | _ => ""))
  | _ => ""

/-- The middleware `newEcho` of the tests: takes `message` from the `query`
property of the request view and hands it to `text` of the response view, with
no further argument; it does not invoke `next`. Reading `message` from a query
that has none is a nil dereference. -/
def newEcho {α : Type} (canonical : Canonical) (fmtr : Formatter α) : middleware Exchange :=
  fun w =>
    match w.req.query with
    | (req, .ok (some query)) =>
      match Object.Get query "message" with
      | some message =>
        let (res, r) := response.textf canonical fmtr w.res (queryText message) []
        match r with
        | .ok () => [.effect (fun _ => ⟨req, res⟩)]
        | .error p => [.effect (fun _ => ⟨req, res⟩), .raise p]
      | none => [.effect (fun w => { w with req := req }), .raise .nilCall]
    | (req, _) => [.effect (fun w => { w with req := req }), .raise .nilCall]

/-- A request `GET /echo?message=...` as the router hands it on: the query holds
the one value given for `message`. -/
def echoRequest (message : String) : Request :=
  { emptyRequest with Path := "/echo", Query := [("message", [message])] }

/-! ## Server and application (`server.go`, `application.go`) -/

/-- Go `net.TCPAddr`, as far as the application reads it. -/
structure TCPAddr where
  IP : String
  Port : Int
  deriving DecidableEq, Repr

/-- Go `net.Listen("tcp", addr)` followed by `listener.Addr()`, as the operating
system answers at the time of the call: an error, or the address bound. -/
abbrev Listen := String → Except GoError TCPAddr

/-- A serving loop started by `go s.serve(listener, handler)`: the address the
listener was asked for and the address it is bound to. -/
structure Serving where
  requested : String
  bound : TCPAddr
  deriving DecidableEq, Repr

/-- Go `type server struct`: the stop channel, by the number of the `make` that
created it, and the serving loops started so far. (The logger and the context
supplier play no part in binding.) -/
structure server where
  stopCh : Nat
  started : List Serving
  deriving DecidableEq, Repr

/-- Go `newServer`. -/
def newServer : server :=
  { stopCh := 0, started := [] }

/-- Go `server.listenAndServe`: a failed bind returns the error and does nothing
else; a bind that succeeds makes a new stop channel, starts the serving loop
and returns the address bound. -/
def server.listenAndServe (netListen : Listen) (s : server) (addr : String) :
    server × Except GoError TCPAddr :=
  match netListen addr with
  | .error err => (s, .error err)
  | .ok a => ({ stopCh := s.stopCh + 1, started := s.started ++ [⟨addr, a⟩] }, .ok a)

/-- Go `RunnerFunc`, seen from the caller: what handing a unit of work to the
runner does to the script world before the runner returns, and the panic it
ends with, if any. -/
abbrev RunnerFunc (σ : Type) := (σ → σ × Option GoError) → σ → σ × Option Panic

/-- Go `syncRunner()`: runs the unit of work in place, under its lock, and
panics with the error the work returns. -/
def syncRunner {σ : Type} : RunnerFunc σ := fun fn w =>
  match fn w with
  | (w, some err) => (w, some (.error err))
  | (w, none) => (w, none)

/-- An argument of a script call: a value, or a callable. -/
inductive Arg (σ : Type) where
  | value (v : Value)
  | function (call : σ → σ × Option GoError)

/-- Go `reflect.Kind`, for the kinds of the types `ExportType()` gives. -/
inductive Kind where
  | Bool
  | Int64
  | Float64
  | String
  | Slice
  | Map
  | Struct
  | Func
  deriving DecidableEq, Repr

/-- Go `arg.ExportType()`, by the kind of the type; `none` is the nil type, which
`undefined` and `null` export to. -/
def Arg.ExportType {σ : Type} : Arg σ → Option Kind
  | .value .undefined => none
  | .value .null => none
  | .value (.bool _) => some .Bool
  | .value (.int _) => some .Int64
  | .value (.float _) => some .Float64
  | .value (.string _) => some .String
  | .value (.bytes _) => some .Struct
  | .value (.array _) => some .Slice
  | .value (.object _) => some .Map
  | .function _ => some .Func

/-- The test `arg.ExportType().Kind() == kind`: `Kind()` called on the nil type
is a nil dereference, which panics. -/
def Arg.kindIs {σ : Type} (arg : Arg σ) (kind : Kind) : Except Panic Bool :=
  match arg.ExportType with
  | none => .error .nilCall
  | some k => .ok (k == kind)

/-- Go `arg.ToInteger()`, used on integers. -/
def Arg.ToInteger {σ : Type} : Arg σ → Int
  | .value (.int i) => i
  | _ => 0

/-- Go `arg.String()`, used on strings. -/
def Arg.String {σ : Type} : Arg σ → String
  | .value (.string s) => s
  | _ => ""

/-- Go `goja.AssertFunction(arg)`. -/
def AssertFunction {σ : Type} : Arg σ → Option (σ → σ × Option GoError)
  | .function call => some call
  | .value _ => none

/-- Go `strconv.Itoa`. -/
def Itoa (i : Int) : String := toString i

/-- Go `net.JoinHostPort`: `host:port`, and `[host]:port` when the host contains
a colon. -/
def JoinHostPort (host port : String) : String :=
  if ':' ∈ host.data then "[" ++ host ++ "]:" ++ port else host ++ ":" ++ port

/-- Go `const defaultHost`. -/
def defaultHost : String := "localhost"

/-- Go `type address struct`. -/
structure address where
  host : String
  hostname : String
  port : Int
  deriving DecidableEq, Repr

/-- Go `type application struct`; `runner` is the runner of the embedded router,
and a nil `address` is `none`. -/
structure application (σ : Type) where
  router : router σ
  runner : RunnerFunc σ
  server : server
  address : Option address

/-- Go `newApplication`. -/
def newApplication {σ : Type} (runner : RunnerFunc σ) : application σ :=
  { router := newRouter σ, runner := runner, server := newServer, address := none }

/-- The first test of `application.listen`,
`len(args) > idx && args[idx].ExportType().Kind() == reflect.Int64`, with its
branch: the address and the index after it, or the panic of the test. -/
def application.listenPort {σ : Type} (args : List (Arg σ)) (addr : Muxpress.address)
    (idx : Nat) :
    Except Panic (Muxpress.address × Nat) :=
  match args[idx]? with
  | some arg =>
    match arg.kindIs .Int64 with
    | .error p => .error p
    | .ok true => .ok ({ addr with port := arg.ToInteger }, idx + 1)
    | .ok false => .ok (addr, idx)
  | none => .ok (addr, idx)

/-- The second test of `application.listen`,
`len(args) > idx && args[idx].ExportType().Kind() == reflect.String`, with its
branch. -/
def application.listenHostname {σ : Type} (args : List (Arg σ)) (addr : Muxpress.address)
    (idx : Nat) : Except Panic (Muxpress.address × Nat) :=
  match args[idx]? with
  | some arg =>
    match arg.kindIs .String with
    | .error p => .error p
    | .ok true => .ok ({ addr with hostname := arg.String }, idx + 1)
    | .ok false => .ok (addr, idx)
  | none => .ok (addr, idx)

/-- Go `application.listen`. It returns nil when it does not panic; a panic of
one of the two tests on the arguments comes before anything is done. -/
def application.listen {σ : Type} (netListen : Listen) (app : application σ)
    (args : List (Arg σ)) (w : σ) : application σ × σ × Except Panic Unit :=
  let idx := 0
  let addr : Muxpress.address := { host := "", hostname := "", port := 0 }
  match application.listenPort args addr idx with
  | .error p => (app, w, .error p)
  | .ok (addr, idx) =>
    match application.listenHostname args addr idx with
    | .error p => (app, w, .error p)
    | .ok (addr, idx) =>
      let addr : Muxpress.address :=
        { addr with host := JoinHostPort addr.hostname (Itoa addr.port) }
      match app.server.listenAndServe netListen addr.host with
      | (srv, .error err) => ({ app with server := srv }, w, .error (throw err))
      | (srv, .ok tcp) =>
        let addr : Muxpress.address :=
          if addr.port = 0 then { addr with port := tcp.Port } else addr
        let addr : Muxpress.address :=
          if addr.hostname.length = 0 then { addr with hostname := defaultHost } else addr
        let addr : Muxpress.address :=
          { addr with host := JoinHostPort addr.hostname (Itoa addr.port) }
        let app := { app with server := srv, address := some addr }
        match args[idx]? with
        | some arg =>
          match AssertFunction arg with
          | some callback =>
            match app.runner (fun w => callback w) w with
            | (w, some p) => (app, w, .error p)
            | (w, none) => (app, w, .ok ())
          | none => (app, w, .ok ())
        | none => (app, w, .ok ())

/-- Go `application.host`. -/
def application.host {σ : Type} (app : application σ) : Value :=
  match app.address with
  | none => .null
  | some a => .string a.host

/-- Go `application.hostname`. -/
def application.hostname {σ : Type} (app : application σ) : Value :=
  match app.address with
  | none => .null
  | some a => .string a.hostname

/-- Go `application.port`. -/
def application.port {σ : Type} (app : application σ) : Value :=
  match app.address with
  | none => .null
  | some a => .int a.port

/-- A sequence of `listen` calls on one application, each with the answer the
operating system gives to its bind and with its arguments. -/
def application.listens {σ : Type} :
    application σ → σ → List (Listen × List (Arg σ)) → application σ × σ
  | app, w, [] => (app, w)
  | app, w, (netListen, args) :: rest =>
    match app.listen netListen args w with
    | (app, w, _) => application.listens app w rest

/-- A bind that succeeds on the port asked for, and on port 49152 when asked
for port 0. -/
def bindAny : Listen := fun addr =>
  if HasSuffix addr ":0" then .ok ⟨"127.0.0.1", 49152⟩
  else if HasSuffix addr ":8080" then .ok ⟨"127.0.0.1", 8080⟩
  else .error (.other "listen: unknown port")

/-- A bind that fails, as on an address already in use. -/
def bindInUse : Listen := fun _ => .error (.other "bind: address already in use")

/-- A callback that counts its invocations in the script world. -/
def countingCallback : Nat → Nat × Option GoError := fun n => (n + 1, none)


/-- An application as the constructor makes it, with the default runner and a
script world that counts callback invocations. -/
def sampleApplication : application Nat :=
  newApplication syncRunner
/-! ## The arguments of `listen`, read as the specification words them -/

/-- The index after the port argument: 1 when the first argument is an integer,
0 otherwise. -/
def portIndex {σ : Type} (args : List (Arg σ)) : Nat :=
  match args[0]? with
  | some arg => if arg.ExportType = some .Int64 then 1 else 0
  | none => 0

/-- The port argument: the first argument when it is an integer, 0 when it is
not or is missing. -/
def portArg {σ : Type} (args : List (Arg σ)) : Int :=
  match args[0]? with
  | some arg => if arg.ExportType = some .Int64 then arg.ToInteger else 0
  | none => 0

/-- The hostname argument: the argument in first position, or in second position
after an integer, when it is a string; the empty string otherwise. -/
def hostnameArg {σ : Type} (args : List (Arg σ)) : String :=
  match args[portIndex args]? with
  | some arg => if arg.ExportType = some .String then arg.String else ""
  | none => ""

/-- The index after the port and hostname arguments. -/
def restIndex {σ : Type} (args : List (Arg σ)) : Nat :=
  match args[portIndex args]? with
  | some arg => if arg.ExportType = some .String then portIndex args + 1 else portIndex args
  | none => portIndex args

/-- The callback argument: the argument that follows the port and hostname
arguments, when it is callable. -/
def callbackArg {σ : Type} (args : List (Arg σ)) : Option (σ → σ × Option GoError) :=
  match args[restIndex args]? with
  | some arg => AssertFunction arg
  | none => none

/-- The address `listen` asks the server to bind. -/
def bindAddress {σ : Type} (args : List (Arg σ)) : String :=
  JoinHostPort (hostnameArg args) (Itoa (portArg args))

/-- The address `listen` stores once the bind gave `tcp`: the port argument, or
the port bound when that is 0; the hostname argument, or `localhost` when that
is empty; and the two joined. -/
def reportedAddress {σ : Type} (args : List (Arg σ)) (tcp : TCPAddr) : address :=
  { host := JoinHostPort
      (if (hostnameArg args).length = 0 then defaultHost else hostnameArg args)
      (Itoa (if portArg args = 0 then tcp.Port else portArg args))
    hostname := if (hostnameArg args).length = 0 then defaultHost else hostnameArg args
    port := if portArg args = 0 then tcp.Port else portArg args }

/-- The first argument has a type, or there is none. -/
def firstTyped {σ : Type} (args : List (Arg σ)) : Bool :=
  match args[0]? with
  | some arg => arg.ExportType.isSome
  | none => true

/-- The argument at the hostname position has a type, or there is none. -/
def secondTyped {σ : Type} (args : List (Arg σ)) : Bool :=
  match args[portIndex args]? with
  | some arg => arg.ExportType.isSome
  | none => true

/-- Whether the arguments that `listen` asks for their type have one: the first
argument, and the second one after an integer, are neither `undefined` nor
`null`. -/
def argsTyped {σ : Type} (args : List (Arg σ)) : Bool :=
  firstTyped args && secondTyped args

/-- What `listen` does, in terms of the arguments so read: an argument without a
type where one is asked for is a nil dereference; a failed bind raises and
changes nothing; a bind that succeeds starts the serving loop, stores the
address and hands the callback, if there is one, to the runner. -/
def listenBySpec {σ : Type} (netListen : Listen) (app : application σ)
    (args : List (Arg σ)) (w : σ) : application σ × σ × Except Panic Unit :=
  if argsTyped args then
    match netListen (bindAddress args) with
    | .error err => (app, w, .error (throw err))
    | .ok tcp =>
      let app := { app with
        server := { stopCh := app.server.stopCh + 1
                    started := app.server.started ++ [⟨bindAddress args, tcp⟩] }
        address := some (reportedAddress args tcp) }
      match callbackArg args with
      | some callback =>
        match app.runner (fun w => callback w) w with
        | (w, some p) => (app, w, .error p)
        | (w, none) => (app, w, .ok ())
      | none => (app, w, .ok ())
  else (app, w, .error .nilCall)

/-! ## Middlewares that raise or invoke the continuation more than once -/

/-- A middleware that notes its name in the world, invokes `next` and raises
afterwards. -/
def failing (name : String) : middleware (List String) :=
  fun _ => [.effect (· ++ [name]), .next, .raise (.exception name)]

/-- A middleware that notes its name in the world and invokes `next` twice. -/
def passingTwice (name : String) : middleware (List String) :=
  fun _ => [.effect (· ++ [name]), .next, .next]

/-- Whether an action is an invocation of the continuation. -/
def Step.isNext {σ : Type} : Step σ → Bool
  | .next => true
  | _ => false

/-- The actions of a middleware with every invocation of the continuation after
the first one left out. -/
def nextOnce {σ : Type} : List (Step σ) → List (Step σ)
  | [] => []
  | .next :: rest => .next :: rest.filter (fun s => !s.isNext)
  | .effect f :: rest => .effect f :: nextOnce rest
  | .raise p :: rest => .raise p :: nextOnce rest

/-- The middleware that does what `mware` does but invokes the continuation once
where `mware` invokes it once or more. -/
def middleware.once {σ : Type} (mware : middleware σ) : middleware σ :=
  fun w => nextOnce (mware w)

/-- A request with the given Content-Type header and body bytes, and the
content length of that body. -/
def bodyRequest (contentType : String) (body : List UInt8) : Request :=
  { emptyRequest with
    Header := [("Content-Type", [contentType])]
    ContentLength := body.length
    Body := { data := body, err := none, reads := 0, closed := false } }

/-- The media type of a Content-Type header value: the characters before the
first `;`, blanks left out, in lower case. -/
def mediaType (contentType : String) : List Char :=
  ((contentType.data.takeWhile (fun c => c != ';')).filter (fun c => c != ' ')).map
    Char.toLower

/-- A Content-Type is JSON, as the specification words it: its media type is
`application/json`. -/
def isJSON (contentType : String) : Bool :=
  mediaType contentType == "application/json".data

/-! ## The serving loop and its log (`server.go`) -/

/-- The two errors `server.serve` compares a shutdown error with:
`context.DeadlineExceeded` and `context.Canceled`. -/
inductive Sentinel where
  | DeadlineExceeded
  | Canceled
  deriving DecidableEq, Repr

/-- Go `errors.Is(err, target)` on an error that is not nil, from the standard
library. -/
abbrev ErrorsIs := GoError → Sentinel → Bool

/-- Go `errors.Is(err, target)`: a nil `err` matches no target that is an error. -/
def errorsIs (is : ErrorsIs) (err : Option GoError) (target : Sentinel) : Bool :=
  match err with
  | none => false
  | some e => is e target

/-- The case of the `select` in `server.serve` that fired: the stop channel, the
context, or the error channel with the error `srv.Serve` returned. -/
inductive Wake where
  | stopCh
  | ctxDone
  | errCh (err : Option GoError)
  deriving DecidableEq, Repr

/-- A line handed to the logger: a debug message, or an error message together
with the error given to `WithError`. -/
inductive LogLine where
  | debug (msg : String)
  | error (err : Option GoError) (msg : String)
  deriving DecidableEq, Repr

/-- Go `server.serve` from its `select` on: what the loop logs, given the case
that fired and the error `srv.Shutdown(ctx)` returns. (The line `server started`
is logged by the goroutine that runs `srv.Serve`, not by the loop.) -/
def server.serve (is : ErrorsIs) (wake : Wake) (shutdownErr : Option GoError) :
    List LogLine :=
  let err : Option GoError :=
    match wake with
    | .stopCh => none
    | .ctxDone => none
    | .errCh err => err
  match err with
  | some e => [.error (some e) "server aborted"]
  | none =>
    let failed :=
      if !errorsIs is shutdownErr .DeadlineExceeded && !errorsIs is shutdownErr .Canceled then
        [LogLine.error shutdownErr "server shutdown failed"]
      else []
    failed ++ [.debug "server stopped"]

/-- A stand-in for `errors.Is` that knows the two context errors by their
messages. -/
def sampleIs : ErrorsIs := fun e target =>
  match target with
  | .DeadlineExceeded => e = .other "context deadline exceeded"
  | .Canceled => e = .other "context canceled"

/-! ## The server with its serving loops (`server.go`) -/

/-- Where a serving loop (`go s.serve(listener, handler)`) stands: started and not
yet at its `select`; blocked in the `select`, receiving from the stop channel it
read from `s.stopCh` on arrival; or past the `select`, on its way out. -/
inductive Phase where
  | started
  | selecting (stopCh : Nat)
  | stopped
  deriving DecidableEq, Repr

/-- A server together with what runs on it: the phase of each serving loop, in
the order of `server.started`, and the stop channels on which a `shutdown` call
is blocked in its send. Channels are unbuffered: a send completes when a
receiver takes the value. -/
structure Process where
  server : server
  loops : List Phase
  sending : List Nat
  deriving DecidableEq, Repr

/-- A new server: no serving loop, nobody sending. -/
def newProcess : Process :=
  { server := newServer, loops := [], sending := [] }

/-- Go `server.shutdown` up to where it blocks: `s.stopCh <- struct{}{}` reads
the channel and offers the value. The call returns when a serving loop receives
it (`Action.receive`). -/
def server.shutdown (p : Process) : Process :=
  { p with sending := p.sending ++ [p.server.stopCh] }

/-- What can happen next on a server: a call of `listenAndServe` or of
`shutdown`, or a move of serving loop `i`: it arrives at its `select`, it
receives the stop signal that a `shutdown` call offers, or it leaves the
`select` by `ctx.Done()` or by `errCh`. -/
inductive Action where
  | listenAndServe (netListen : Listen) (addr : String)
  | shutdown
  | select (i : Nat)
  | receive (i : Nat)
  | leave (i : Nat)

/-- One action on the process; `none` when the action cannot happen in this
state. -/
def Process.step (p : Process) : Action → Option Process
  | .listenAndServe netListen addr =>
    match p.server.listenAndServe netListen addr with
    | (s, .error _) => some { p with server := s }
    | (s, .ok _) => some { p with server := s, loops := p.loops ++ [.started] }
  | .shutdown => some (server.shutdown p)
  | .select i =>
    match p.loops[i]? with
    | some .started => some { p with loops := p.loops.set i (.selecting p.server.stopCh) }
    | _ => none
  | .receive i =>
    match p.loops[i]? with
    | some (.selecting ch) =>
      if ch ∈ p.sending then
        some { p with loops := p.loops.set i .stopped, sending := p.sending.erase ch }
      else none
    | _ => none
  | .leave i =>
    match p.loops[i]? with
    | some (.selecting _) => some { p with loops := p.loops.set i .stopped }
    | _ => none

/-- A sequence of actions; `none` when one of them cannot happen. -/
def Process.run : Process → List Action → Option Process
  | p, [] => some p
  | p, a :: rest =>
    match p.step a with
    | some q => q.run rest
    | none => none

/-- The serving loops that have not left their `select`: the active listeners. -/
def Process.active (p : Process) : Nat :=
  p.loops.countP (fun ph => ph != .stopped)

/-- The `shutdown` calls blocked in a send on channel `ch`. -/
def Process.blocked (p : Process) (ch : Nat) : Nat :=
  p.sending.count ch

/-- Whether the action starts a serving loop: 1 for a `listenAndServe` whose bind
succeeds. -/
def Action.starts : Action → Nat
  | .listenAndServe netListen addr =>
    match netListen addr with
    | .ok _ => 1
    | .error _ => 0
  | _ => 0

/-- Whether the action takes a serving loop out of its `select`. -/
def Action.stops : Action → Nat
  | .receive _ => 1
  | .leave _ => 1
  | _ => 0

/-! ## `runSync` (`router.go`) -/

/-- A runner by what it does with the unit of work it is handed: it invokes it
once on the calling thread before it returns (as `syncRunner` does); it returns
and the unit is invoked once on another thread, at any time after the hand-over;
or it returns and the unit is never invoked. -/
inductive Runner where
  | inPlace
  | onThread
  | dropping
  deriving DecidableEq, Repr

/-- How many times the runner invokes the unit of work. -/
def Runner.invocations : Runner → Nat
  | .inPlace => 1
  | .onThread => 1
  | .dropping => 0

/-- Where the thread that called `runSync` stands: before `r.runner(...)`, inside
the runner, at `<-done`, or past it. -/
inductive Caller where
  | entering
  | inRunner
  | receiving
  | returned
  deriving DecidableEq, Repr

/-- Where the unit of work `func() error` built by `runSync` stands: not handed to
the runner yet, handed over, inside `fn()`, at `done <- struct{}{}`, or past
it. -/
inductive Work where
  | unhanded
  | handed
  | running
  | sending
  | finished
  deriving DecidableEq, Repr

/-- The state of one call of `runSync(fn)`: the two program points, the number of
values in the channel `done` (made with capacity 1), the world `fn` acts on, and
how many executions of `fn` have completed. -/
structure Sync (σ : Type) where
  caller : Caller
  work : Work
  done : Nat
  world : σ
  calls : Nat

/-- The threads that can move: the calling one and the one the runner invokes the
unit of work on. -/
inductive Thread where
  | caller
  | other
  deriving DecidableEq, Repr

/-- The call of `runSync(fn)` at its start, after `done := make(chan struct{}, 1)`. -/
def Sync.start {σ : Type} (w : σ) : Sync σ :=
  { caller := .entering, work := .unhanded, done := 0, world := w, calls := 0 }

/-- One move of the unit of work: `fn` is entered, `fn` returns, or the value is
sent to `done`, which blocks while the channel is full. -/
def Sync.workStep {σ : Type} (fn : σ → σ) (s : Sync σ) : Option (Sync σ) :=
  match s.work with
  | .handed => some { s with work := .running }
  | .running => some { s with work := .sending, world := fn s.world, calls := s.calls + 1 }
  | .sending => if s.done < 1 then some { s with work := .finished, done := s.done + 1 } else none
  | .unhanded => none
  | .finished => none

/-- One move of a thread in Go `router.runSync`; `none` when the thread cannot
move (it is blocked, or has nothing to do). The calling thread hands the unit
of work to the runner, stays in the runner while an in-place runner invokes the
unit, and then receives from `done`, which blocks while the channel is
empty. -/
def Sync.step {σ : Type} (runner : Runner) (fn : σ → σ) (s : Sync σ) :
    Thread → Option (Sync σ)
  | .caller =>
    match s.caller with
    | .entering => some { s with caller := .inRunner, work := .handed }
    | .inRunner =>
      match runner with
      | .inPlace =>
        if s.work = .finished then some { s with caller := .receiving } else s.workStep fn
      | .onThread => some { s with caller := .receiving }
      | .dropping => some { s with caller := .receiving }
    | .receiving =>
      if 0 < s.done then some { s with caller := .returned, done := s.done - 1 } else none
    | .returned => none
  | .other =>
    match runner with
    | .onThread => s.workStep fn
    | .inPlace => none
    | .dropping => none

/-- The moves of a schedule, one after the other; `none` when a scheduled thread
cannot move. -/
def Sync.run {σ : Type} (runner : Runner) (fn : σ → σ) : Sync σ → List Thread → Option (Sync σ)
  | s, [] => some s
  | s, t :: rest =>
    match s.step runner fn t with
    | some s' => Sync.run runner fn s' rest
    | none => none

/-- The moves still ahead of a call of `runSync`. -/
def Sync.ahead {σ : Type} (s : Sync σ) : Nat :=
  (match s.caller with
   | .entering => 3
   | .inRunner => 2
   | .receiving => 1
   | .returned => 0)
  + (match s.work with
     | .unhanded => 3
     | .handed => 3
     | .running => 2
     | .sending => 1
     | .finished => 0)

/-- The states a call of `runSync(fn)` started in world `w` passes through. -/
def Sync.sound {σ : Type} (runner : Runner) (fn : σ → σ) (w : σ) (s : Sync σ) : Prop :=
  match s.caller, s.work with
  | .entering, .unhanded => s.done = 0 ∧ s.calls = 0 ∧ s.world = w
  | .inRunner, .handed => s.done = 0 ∧ s.calls = 0 ∧ s.world = w
  | .inRunner, .running => s.done = 0 ∧ s.calls = 0 ∧ s.world = w
  | .inRunner, .sending => s.done = 0 ∧ s.calls = 1 ∧ s.world = fn w
  | .inRunner, .finished => s.done = 1 ∧ s.calls = 1 ∧ s.world = fn w
  | .receiving, .handed => runner ≠ .inPlace ∧ s.done = 0 ∧ s.calls = 0 ∧ s.world = w
  | .receiving, .running => runner ≠ .inPlace ∧ s.done = 0 ∧ s.calls = 0 ∧ s.world = w
  | .receiving, .sending => runner ≠ .inPlace ∧ s.done = 0 ∧ s.calls = 1 ∧ s.world = fn w
  | .receiving, .finished => s.done = 1 ∧ s.calls = 1 ∧ s.world = fn w
  | .returned, .finished => s.done = 0 ∧ s.calls = 1 ∧ s.world = fn w
  | _, _ => False

/-! ## The chain: what it walks and where it stops -/

theorem copy_make_zero {σ : Type} (n : Nat) (src : List (Option (middleware σ)))
    (h : src.length ≤ n) :
    copy (make σ n) 0 src = src ++ List.replicate (n - src.length) none := by
  simp [copy, make, List.take_of_length_le h]

theorem all_eq_append {σ : Type} (chain cascade : List (middleware σ)) :
    middlewareChain.all chain cascade = (chain ++ cascade).map some := by
  unfold middlewareChain.all
  simp only []
  rw [copy_make_zero _ _ (by simp)]
  have h1 : List.take cascade.length (List.map some cascade) = List.map some cascade :=
    List.take_of_length_le (by simp)
  have h2 : List.drop (chain.length + cascade.length) (List.map some chain) = [] :=
    List.drop_of_length_le (by simp)
  simp [copy, List.take_append_eq_append_take, List.drop_append_eq_append_drop, h1, h2]

theorem loop_log_initial {σ : Type} (l : List (middleware σ)) (w : σ) :
    (middlewareChain.loop (l.map some) w).log.map Invocation.mware <+: l := by
  induction l generalizing w with
  | nil => simp [middlewareChain.loop]
  | cons m rest ih =>
    simp only [List.map_cons, middlewareChain.loop]
    rcases h : middlewareChain.callOne w m with ⟨w', (p | (_ | _))⟩
    · simp [List.prefix_cons_inj, List.nil_prefix]
    · simp [List.prefix_cons_inj, List.nil_prefix]
    · simpa [List.prefix_cons_inj] using ih w'

theorem loop_stop_last {σ : Type} (l : List (middleware σ)) (w : σ) (k : Nat)
    (e : Invocation σ)
    (hk : (middlewareChain.loop (l.map some) w).log[k]? = some e)
    (he : e.outcome ≠ .ok true) :
    (middlewareChain.loop (l.map some) w).log.length = k + 1 := by
  induction l generalizing w k with
  | nil => simp [middlewareChain.loop] at hk
  | cons m rest ih =>
    simp only [List.map_cons, middlewareChain.loop] at hk ⊢
    rcases h : middlewareChain.callOne w m with ⟨w', (p | (_ | _))⟩
    · rw [h] at hk
      simp only at hk ⊢
      cases k with
      | zero => rfl
      | succ k => simp at hk
    · rw [h] at hk
      simp only at hk ⊢
      cases k with
      | zero => rfl
      | succ k => simp at hk
    · rw [h] at hk
      simp only at hk ⊢
      cases k with
      | zero =>
        simp at hk
        subst hk
        simp at he
      | succ k =>
        simp only [List.getElem?_cons_succ] at hk
        simpa using ih w' k hk

theorem loop_log_full {σ : Type} (l : List (middleware σ)) (w : σ)
    (h : ∀ e ∈ (middlewareChain.loop (l.map some) w).log, e.outcome = .ok true) :
    (middlewareChain.loop (l.map some) w).log.map Invocation.mware = l := by
  induction l generalizing w with
  | nil => simp [middlewareChain.loop]
  | cons m rest ih =>
    simp only [List.map_cons, middlewareChain.loop] at h ⊢
    rcases hc : middlewareChain.callOne w m with ⟨w', (p | (_ | _))⟩
    · rw [hc] at h
      simp at h
    · rw [hc] at h
      simp at h
    · rw [hc] at h
      simp only [List.mem_cons, forall_eq_or_imp, true_and] at h
      simpa using ih w' h

theorem call_log_initial {σ : Type} (chain cascade : List (middleware σ)) (w : σ) :
    (middlewareChain.call chain w cascade).log.map Invocation.mware <+: chain ++ cascade := by
  unfold middlewareChain.call
  rw [all_eq_append]
  exact loop_log_initial _ w

theorem call_log_full {σ : Type} (chain cascade : List (middleware σ)) (w : σ)
    (h : ∀ e ∈ (middlewareChain.call chain w cascade).log, e.outcome = .ok true) :
    (middlewareChain.call chain w cascade).log.map Invocation.mware = chain ++ cascade := by
  unfold middlewareChain.call at h ⊢
  rw [all_eq_append] at h ⊢
  exact loop_log_full _ w h

theorem setup_middlewares {σ : Type} (ops : List (Setup σ)) (r : router σ) :
    (ops.foldl router.setup r).middlewares = r.middlewares ++ usedBy ops := by
  induction ops generalizing r with
  | nil => simp [usedBy]
  | cons op rest ih =>
    cases op <;> simp [ih, router.setup, router.use, router.handleMethod, usedBy]

theorem setup_routes {σ : Type} (ops : List (Setup σ)) (r : router σ) :
    (ops.foldl router.setup r).routes = r.routes ++ routedBy ops := by
  induction ops generalizing r with
  | nil => simp [routedBy]
  | cons op rest ih =>
    cases op <;> simp [ih, router.setup, router.use, router.handleMethod, routedBy]

/-- C1: in a dispatch by `middlewareChain.call` over a global chain and a
route list, when the middleware executed at position `k` returned without having
invoked its continuation, the executed middlewares are exactly positions `0..k`
of the combined sequence: nothing at a position after `k` is executed. -/
theorem call_stops_after_declining_middleware {σ : Type}
    (chain cascade : List (middleware σ)) (w : σ) (k : Nat) (e : Invocation σ)
    (hk : (middlewareChain.call chain w cascade).log[k]? = some e)
    (he : e.outcome = .ok false) :
    (middlewareChain.call chain w cascade).log.map Invocation.mware
        = (chain ++ cascade).take (k + 1)
      ∧ ∀ j, k < j → (middlewareChain.call chain w cascade).log[j]? = none := by
  have hlen : (middlewareChain.call chain w cascade).log.length = k + 1 := by
    unfold middlewareChain.call at hk ⊢
    rw [all_eq_append] at hk ⊢
    exact loop_stop_last _ w k e hk (by rw [he]; simp)
  refine ⟨?_, ?_⟩
  · have hp := call_log_initial chain cascade w
    rw [List.prefix_iff_eq_take] at hp
    rw [hp, List.length_map, hlen]
  · intro j hj
    apply List.getElem?_eq_none
    omega

theorem call_stops_after_declining_middleware_witness :
    (middlewareChain.call [passing "g"] [] [ending "a", passing "b"]).log.map Invocation.mware
        = ([passing "g"] ++ [ending "a", passing "b"]).take (1 + 1)
      ∧ ∀ j, 1 < j →
        (middlewareChain.call [passing "g"] [] [ending "a", passing "b"]).log[j]? = none :=
  call_stops_after_declining_middleware [passing "g"] [ending "a", passing "b"] [] 1
    ⟨ending "a", .ok false⟩ rfl rfl

/-- C2: for a router set up by any sequence of `use` and `handleMethod` calls,
the global list is the concatenation `G` of the `use` arguments in call order,
and a dispatch to a route with own list `R` builds and walks `G ++ R`: the
executed middlewares are an initial segment of `G ++ R`, and all of `G ++ R`
when every executed middleware invoked its continuation. -/
theorem dispatch_walks_globals_then_route {σ : Type} (ops : List (Setup σ))
    (rt : route σ) (w : σ) :
    (ops.foldl router.setup (newRouter σ)).middlewares = usedBy ops
      ∧ middlewareChain.all (ops.foldl router.setup (newRouter σ)).middlewares rt.middlewares
          = (usedBy ops ++ rt.middlewares).map some
      ∧ ((ops.foldl router.setup (newRouter σ)).dispatch rt w).log.map Invocation.mware
          <+: usedBy ops ++ rt.middlewares
      ∧ ((∀ e ∈ ((ops.foldl router.setup (newRouter σ)).dispatch rt w).log,
            e.outcome = .ok true) →
          ((ops.foldl router.setup (newRouter σ)).dispatch rt w).log.map Invocation.mware
            = usedBy ops ++ rt.middlewares) := by
  have hm : (ops.foldl router.setup (newRouter σ)).middlewares = usedBy ops := by
    rw [setup_middlewares]
    simp [newRouter]
  refine ⟨hm, ?_, ?_, ?_⟩
  · rw [hm, all_eq_append]
  · unfold router.dispatch router.handle
    rw [hm]
    exact call_log_initial _ _ w
  · unfold router.dispatch router.handle
    rw [hm]
    exact call_log_full _ _ w

theorem loop_reaches {σ : Type} (pre : List (middleware σ)) (m : middleware σ)
    (post : List (middleware σ)) : ∀ w : σ,
    (∀ (k : Nat) (e : Invocation σ), k < pre.length →
        (middlewareChain.loop ((pre ++ m :: post).map some) w).log[k]? = some e →
        e.outcome = .ok true) →
    ∃ e, (middlewareChain.loop ((pre ++ m :: post).map some) w).log[pre.length]? = some e
      ∧ e.mware = m
      ∧ e.outcome = (middlewareChain.callOne
          (pre.foldl (fun w a => (middlewareChain.callOne w a).1) w) m).2 := by
  induction pre with
  | nil =>
    intro w _
    simp only [List.nil_append, List.map_cons, middlewareChain.loop, List.length_nil,
      List.foldl_nil]
    rcases hc : middlewareChain.callOne w m with ⟨w', (p | (_ | _))⟩ <;> simp
  | cons a pre ih =>
    intro w h
    simp only [List.cons_append, List.map_cons, middlewareChain.loop, List.length_cons,
      List.foldl_cons] at h ⊢
    rcases hc : middlewareChain.callOne w a with ⟨w', (p | (_ | _))⟩
    · rw [hc] at h
      have := h 0 ⟨a, .error p⟩ (by omega) (by simp)
      simp at this
    · rw [hc] at h
      have := h 0 ⟨a, .ok false⟩ (by omega) (by simp)
      simp at this
    · rw [hc] at h
      simp only [List.getElem?_cons_succ]
      apply ih w'
      intro k e hk he
      exact h (k + 1) e (by omega) (by simpa using he)

/-- C3: a route registered with `handleMethod`, followed by any further set-up
calls and then by `use(m)`, is dispatched over the global list as it is after
the `use` call: the sequence walked is `G ++ [m] ++ R`, with `G` the globals
registered before `m` and `R` the route's own middlewares. The executed
middlewares are an initial segment of it, so `m` stands before every middleware
of `R`; and `m` is executed, at position `|G|` and in the world the globals
before it left, whenever each of those returned having invoked its continuation:
always when there are none. -/
theorem use_after_handleMethod_applies {σ : Type} (r : router σ)
    (method path : String) (R : List (middleware σ)) (ops : List (Setup σ))
    (m : middleware σ) (w : σ) :
    (⟨method, path, R⟩ : route σ) ∈
        ((ops.foldl router.setup (r.handleMethod method path R)).use [m]).routes
      ∧ middlewareChain.all
          ((ops.foldl router.setup (r.handleMethod method path R)).use [m]).middlewares R
          = ((r.middlewares ++ usedBy ops) ++ m :: R).map some
      ∧ (((ops.foldl router.setup (r.handleMethod method path R)).use [m]).dispatch
            ⟨method, path, R⟩ w).log.map Invocation.mware
          <+: (r.middlewares ++ usedBy ops) ++ m :: R
      ∧ ((∀ (k : Nat) (e : Invocation σ), k < (r.middlewares ++ usedBy ops).length →
            (((ops.foldl router.setup (r.handleMethod method path R)).use [m]).dispatch
              ⟨method, path, R⟩ w).log[k]? = some e → e.outcome = .ok true) →
          ∃ e, (((ops.foldl router.setup (r.handleMethod method path R)).use [m]).dispatch
              ⟨method, path, R⟩ w).log[(r.middlewares ++ usedBy ops).length]? = some e
            ∧ e.mware = m
            ∧ e.outcome = (middlewareChain.callOne
                ((r.middlewares ++ usedBy ops).foldl
                  (fun w a => (middlewareChain.callOne w a).1) w) m).2)
      ∧ (r.middlewares ++ usedBy ops = [] →
          ∃ e, (((ops.foldl router.setup (r.handleMethod method path R)).use [m]).dispatch
              ⟨method, path, R⟩ w).log[0]? = some e
            ∧ e.mware = m ∧ e.outcome = (middlewareChain.callOne w m).2) := by
  have hm : ((ops.foldl router.setup (r.handleMethod method path R)).use [m]).middlewares
      = (r.middlewares ++ usedBy ops) ++ [m] := by
    simp [router.use, setup_middlewares, router.handleMethod]
  have hp : (((ops.foldl router.setup (r.handleMethod method path R)).use [m]).dispatch
            ⟨method, path, R⟩ w).log.map Invocation.mware
          <+: (r.middlewares ++ usedBy ops) ++ m :: R := by
    unfold router.dispatch router.handle
    rw [hm]
    simpa using call_log_initial ((r.middlewares ++ usedBy ops) ++ [m]) R w
  have hd : ((ops.foldl router.setup (r.handleMethod method path R)).use [m]).dispatch
        ⟨method, path, R⟩ w
      = middlewareChain.loop (((r.middlewares ++ usedBy ops) ++ m :: R).map some) w := by
    unfold router.dispatch router.handle middlewareChain.call
    rw [hm, all_eq_append]
    simp
  have hreach := loop_reaches (r.middlewares ++ usedBy ops) m R w
  refine ⟨?_, ?_, hp, ?_, ?_⟩
  · simp [router.use, setup_routes, router.handleMethod]
  · rw [hm, all_eq_append]
    simp
  · rw [hd]
    exact hreach
  · intro hG
    rw [hd]
    rw [hG] at hreach ⊢
    exact hreach (fun k e hk _ => absurd hk (by simp))

theorem use_after_handleMethod_applies_witness :
    (newRouter (List String)).middlewares ++ usedBy ([] : List (Setup (List String))) = []
      ∧ (((([] : List (Setup (List String))).foldl router.setup
            ((newRouter (List String)).handleMethod "GET" "/echo" [ending "echo"])).use
              [passing "magic"]).dispatch ⟨"GET", "/echo", [ending "echo"]⟩ []).world
          = ["magic", "echo"]
      ∧ ∃ e, ((((([] : List (Setup (List String))).foldl router.setup
            ((newRouter (List String)).handleMethod "GET" "/echo" [ending "echo"])).use
              [passing "magic"]).dispatch ⟨"GET", "/echo", [ending "echo"]⟩ []).log[0]? = some e
          ∧ e.mware = passing "magic"
          ∧ e.outcome = (middlewareChain.callOne [] (passing "magic")).2) :=
  ⟨rfl, rfl,
   (use_after_handleMethod_applies (newRouter (List String)) "GET" "/echo" [ending "echo"] []
      (passing "magic") []).2.2.2.2 rfl⟩

/-! ## Mount path normalisation -/

theorem hasSuffix_iff (s suffix : String) :
    HasSuffix s suffix = true ↔ suffix.data <:+ s.data := by
  simp [HasSuffix]

theorem hasSuffix_append_self (s suffix : String) : HasSuffix (s ++ suffix) suffix = true := by
  rw [hasSuffix_iff]
  simp

theorem not_wildcard_suffix_of_slash (p : String) :
    HasSuffix (p ++ "/") "/*filepath" = false := by
  rw [Bool.eq_false_iff, Ne, hasSuffix_iff, ← List.reverse_prefix]
  simp [List.prefix_cons_inj, List.cons_prefix_cons]

theorem suffix_append_right_cancel {α : Type} (a b c : List α) :
    a ++ c <:+ b ++ c ↔ a <:+ b := by
  constructor
  · rintro ⟨t, ht⟩
    exact ⟨t, List.append_cancel_right (by simpa [List.append_assoc] using ht)⟩
  · rintro ⟨t, ht⟩
    exact ⟨t, by rw [← ht, List.append_assoc]⟩

theorem hasSuffix_append_right_cancel (p a c : String) :
    HasSuffix (p ++ c) (a ++ c) = HasSuffix p a := by
  rw [Bool.eq_iff_iff, hasSuffix_iff, hasSuffix_iff]
  simp [suffix_append_right_cancel]

theorem fixpath_three_forms (p : String) (h1 : HasSuffix p "/" = false)
    (h2 : HasSuffix p "/*filepath" = false) :
    router.fixpath p = p ++ "/*filepath"
      ∧ router.fixpath (p ++ "/") = p ++ "/*filepath"
      ∧ router.fixpath (p ++ "/*filepath") = p ++ "/*filepath" := by
  refine ⟨?_, ?_, ?_⟩
  · simp [router.fixpath, h1, h2, String.append_assoc]
  · simp [router.fixpath, not_wildcard_suffix_of_slash, hasSuffix_append_self, String.append_assoc]
  · simp [router.fixpath, hasSuffix_append_self]

theorem fixpath_three_forms_witness :
    router.fixpath "/foo" = "/foo" ++ "/*filepath"
      ∧ router.fixpath ("/foo" ++ "/") = "/foo" ++ "/*filepath"
      ∧ router.fixpath ("/foo" ++ "/*filepath") = "/foo" ++ "/*filepath" :=
  fixpath_three_forms "/foo" (by decide) (by decide)

theorem fixpath_double_slash_counterexample :
    HasSuffix "/foo//" "/*filepath" = false
      ∧ router.fixpath "/foo//" = "/foo//*filepath"
      ∧ HasSuffix (router.fixpath "/foo//") "//*filepath" = true := by
  decide

theorem fixpath_appends_wildcard (p : String) (h : HasSuffix p "/*filepath" = false) :
    router.fixpath p = (if HasSuffix p "/" then p ++ "*filepath" else p ++ "/*filepath")
      ∧ HasSuffix (router.fixpath p) "/*filepath" = true
      ∧ (HasSuffix (router.fixpath p) "//*filepath" = true ↔ HasSuffix p "//" = true) := by
  have e1 : ("//*filepath" : String) = "//" ++ "*filepath" := by decide
  have e2 : ("//*filepath" : String) = "/" ++ "/*filepath" := by decide
  have e3 : ("/*filepath" : String) = "/" ++ "*filepath" := by decide
  by_cases hs : HasSuffix p "/" = true
  · have hf : router.fixpath p = p ++ "*filepath" := by
      simp [router.fixpath, h, hs]
    refine ⟨by simp [hf, hs], ?_, ?_⟩
    · rw [hf, e3, hasSuffix_append_right_cancel, hs]
    · rw [hf, e1, hasSuffix_append_right_cancel]
  · have hs2 : HasSuffix p "/" = false := by simpa using hs
    have hf : router.fixpath p = p ++ "/*filepath" := by
      simp [router.fixpath, h, hs2, String.append_assoc]
    refine ⟨by simp [hf, hs2], ?_, ?_⟩
    · rw [hf, hasSuffix_append_self]
    · rw [hf, e2, hasSuffix_append_right_cancel, hs2]
      constructor
      · intro hc
        cases hc
      · intro hc
        rw [hasSuffix_iff] at hc
        have : ("/" : String).data <:+ p.data :=
          List.IsSuffix.trans (by decide) hc
        rw [← hasSuffix_iff, hs2] at this
        cases this

theorem fixpath_appends_wildcard_witness :
    router.fixpath "/foo" = (if HasSuffix "/foo" "/" then "/foo" ++ "*filepath" else "/foo" ++ "/*filepath")
      ∧ HasSuffix (router.fixpath "/foo") "/*filepath" = true
      ∧ (HasSuffix (router.fixpath "/foo") "//*filepath" = true ↔ HasSuffix "/foo" "//" = true) :=
  fixpath_appends_wildcard "/foo" (by decide)

/-! ## Query, cookies and body -/

theorem get_store_same (obj : Object) (name : String) (value : Value) :
    Object.Get (Object.store obj name value) name = some value := by
  induction obj with
  | nil => simp [Object.store, Object.Get]
  | cons p rest ih =>
    obtain ⟨k, x⟩ := p
    by_cases hk : k = name
    · simp [Object.store, Object.Get, hk]
    · simp only [Object.store, hk, if_false]
      simp only [Object.Get] at ih ⊢
      simpa [List.find?_cons, hk] using ih

theorem get_store_other (obj : Object) (name other : String) (value : Value)
    (h : name ≠ other) :
    Object.Get (Object.store obj name value) other = Object.Get obj other := by
  induction obj with
  | nil => simp [Object.store, Object.Get, h]
  | cons p rest ih =>
    obtain ⟨k, x⟩ := p
    by_cases hk : k = name
    · subst hk
      simp [Object.store, Object.Get, List.find?_cons, h]
    · simp only [Object.store, hk, if_false]
      simp only [Object.Get] at ih ⊢
      by_cases hko : k = other
      · simp [List.find?_cons, hko]
      · simpa [List.find?_cons, hko] using ih

theorem mem_keys_store (obj : Object) (name key : String) (value : Value) :
    key ∈ (Object.store obj name value).map Prod.fst ↔ key = name ∨ key ∈ obj.map Prod.fst := by
  induction obj with
  | nil => simp [Object.store]
  | cons p rest ih =>
    obtain ⟨k, x⟩ := p
    by_cases hk : k = name
    · subst hk
      simp [Object.store]
    · simp only [Object.store, hk, if_false, List.map_cons, List.mem_cons, ih]
      tauto

theorem nodup_keys_store (obj : Object) (name : String) (value : Value)
    (h : (obj.map Prod.fst).Nodup) :
    ((Object.store obj name value).map Prod.fst).Nodup := by
  induction obj with
  | nil => simp [Object.store]
  | cons p rest ih =>
    obtain ⟨k, x⟩ := p
    simp only [List.map_cons, List.nodup_cons] at h
    by_cases hk : k = name
    · subst hk
      simpa [Object.store] using h
    · simp only [Object.store, hk, if_false, List.map_cons, List.nodup_cons]
      refine ⟨?_, ih h.2⟩
      rw [mem_keys_store]
      rintro (h1 | h1)
      · exact hk h1
      · exact h.1 h1

theorem get_set_same (obj : Object) (name : String) (value : Value)
    (h : name ≠ "__proto__") :
    Object.Get (Object.Set obj name value) name = some value := by
  simp only [Object.Set, h, if_false]
  exact get_store_same obj name value

theorem get_set_other (obj : Object) (name other : String) (value : Value)
    (h : name ≠ other) :
    Object.Get (Object.Set obj name value) other = Object.Get obj other := by
  unfold Object.Set
  split
  · rfl
  · exact get_store_other obj name other value h

theorem mem_keys_set (obj : Object) (name key : String) (value : Value) :
    key ∈ (Object.Set obj name value).map Prod.fst
      ↔ (key = name ∧ name ≠ "__proto__") ∨ key ∈ obj.map Prod.fst := by
  unfold Object.Set
  split
  · rename_i h
    simp [h]
  · rename_i h
    rw [mem_keys_store]
    simp [h]

theorem nodup_keys_set (obj : Object) (name : String) (value : Value)
    (h : (obj.map Prod.fst).Nodup) :
    ((Object.Set obj name value).map Prod.fst).Nodup := by
  unfold Object.Set
  split
  · exact h
  · exact nodup_keys_store obj name value h

theorem foldl_snoc_eq_map (value : List String) :
    value.foldl (fun all str => all ++ [Value.string str]) [] = value.map Value.string := by
  induction value using List.reverseRecOn with
  | nil => rfl
  | append_singleton xs x ih => simp [List.foldl_append, ih]

theorem wrapValues_append (values : Values) (key : String) (value : List String) :
    wrapValues (values ++ [(key, value)])
      = Object.Set (wrapValues values) key
          (if value.length = 1 then Value.string (value.headD "")
           else Value.array (value.map Value.string)) := by
  have hw : ∀ vs : Values, wrapValues vs = vs.foldl (fun out (entry : String × List String) =>
      let key := entry.1
      let value := entry.2
      if h : value.length = 1 then
        mustSet out key (.string value[0])
      else
        let all := value.foldl (fun all str => all ++ [Value.string str]) []
        mustSet out key (NewArray all)) NewObject := by
    intro vs
    cases vs <;> simp [wrapValues]
  rw [hw, hw, List.foldl_append]
  simp only [List.foldl_cons, List.foldl_nil, mustSet, NewArray, foldl_snoc_eq_map]
  split
  · rename_i h
    congr 1
    match value, h with
    | [v], _ => rfl
  · rfl

theorem wrapValues_get (values : Values) (hnd : (values.map Prod.fst).Nodup)
    (key : String) (value : List String) (hkey : key ≠ "__proto__")
    (hmem : (key, value) ∈ values) :
    Object.Get (wrapValues values) key
      = some (if value.length = 1 then Value.string (value.headD "")
              else Value.array (value.map Value.string)) := by
  induction values using List.reverseRecOn with
  | nil => simp at hmem
  | append_singleton vs e ih =>
    obtain ⟨k, v⟩ := e
    rw [wrapValues_append]
    simp only [List.map_append, List.map_cons, List.map_nil] at hnd
    rw [List.nodup_append] at hnd
    obtain ⟨hnd1, -, hdis⟩ := hnd
    simp only [List.mem_append, List.mem_singleton, Prod.mk.injEq] at hmem
    rcases hmem with hm | ⟨hk, hv⟩
    · have hne : k ≠ key := by
        intro hk
        subst hk
        exact hdis (List.mem_map_of_mem Prod.fst hm) (by simp)
      rw [get_set_other _ _ _ _ hne]
      exact ih hnd1 hm
    · subst hk hv
      rw [get_set_same _ _ _ hkey]

theorem wrapValues_keys (values : Values) :
    "__proto__" ∉ (wrapValues values).map Prod.fst := by
  induction values using List.reverseRecOn with
  | nil => simp [wrapValues, NewObject]
  | append_singleton vs e ih =>
    obtain ⟨k, v⟩ := e
    rw [wrapValues_append, mem_keys_set]
    rintro (⟨h1, h2⟩ | h)
    · exact h2 h1.symm
    · exact ih h

/-- C6, as the code has it: for the query `__proto__=x` the key has exactly one
value, and the object given by `wrapValues` has no property of that name: it is
the empty object. -/
theorem wrapValues_proto_key_counterexample :
    ("__proto__", ["x"]) ∈ [("__proto__", ["x"])]
      ∧ wrapValues [("__proto__", ["x"])] = NewObject
      ∧ Object.Get (wrapValues [("__proto__", ["x"])]) "__proto__" ≠ some (Value.string "x") := by
  refine ⟨List.mem_singleton.mpr rfl, rfl, ?_⟩
  intro h
  cases h

/-- C6, amended: for every decoded query mapping (its keys distinct), the object
given by `wrapValues` holds under each key other than `__proto__` with exactly
one value that value as a scalar string, and under each such key with two or
more values the array of all its values in their order; it never has an own
property `__proto__`. -/
theorem wrapValues_scalar_or_array (values : Values)
    (hnd : (values.map Prod.fst).Nodup) :
    (∀ key v, key ≠ "__proto__" → (key, [v]) ∈ values →
        Object.Get (wrapValues values) key = some (Value.string v))
      ∧ (∀ key value, key ≠ "__proto__" → (key, value) ∈ values → 2 ≤ value.length →
        Object.Get (wrapValues values) key = some (Value.array (value.map Value.string)))
      ∧ "__proto__" ∉ (wrapValues values).map Prod.fst := by
  refine ⟨?_, ?_, wrapValues_keys values⟩
  · intro key v hkey hmem
    rw [wrapValues_get values hnd key [v] hkey hmem]
    rfl
  · intro key value hkey hmem hlen
    rw [wrapValues_get values hnd key value hkey hmem]
    have : value.length ≠ 1 := by omega
    simp [this]

theorem wrapValues_scalar_or_array_witness :
    Object.Get (wrapValues [("query-name", ["query-value"]),
          ("other-query", ["other-value", "another-value"]), ("__proto__", ["x"])])
        "query-name" = some (Value.string "query-value")
      ∧ Object.Get (wrapValues [("query-name", ["query-value"]),
          ("other-query", ["other-value", "another-value"]), ("__proto__", ["x"])])
        "other-query"
          = some (Value.array (["other-value", "another-value"].map Value.string)) :=
  ⟨(wrapValues_scalar_or_array
      [("query-name", ["query-value"]), ("other-query", ["other-value", "another-value"]),
        ("__proto__", ["x"])]
      (by decide)).1 "query-name" "query-value" (by decide) (by decide),
   (wrapValues_scalar_or_array
      [("query-name", ["query-value"]), ("other-query", ["other-value", "another-value"]),
        ("__proto__", ["x"])]
      (by decide)).2.1 "other-query" ["other-value", "another-value"] (by decide) (by decide)
      (by decide)⟩

/-- C7, as the code has it: the Content-Type `application/jsonx` is not JSON, and
for a request with it and the body `{}` `wrapBody` returns an empty object; the
JSON Content-Type `Application/JSON`, on the other side, gives `undefined`. -/
theorem wrapBody_non_json_type_counterexample :
    isJSON "application/jsonx" = false
      ∧ (bodyRequest "application/jsonx" [123, 125]).ContentLength ≠ 0
      ∧ (wrapBody sampleUnmarshal (bodyRequest "application/jsonx" [123, 125])).2
          = .ok (Value.object [])
      ∧ isJSON "Application/JSON" = true
      ∧ (wrapBody sampleUnmarshal (bodyRequest "Application/JSON" [123, 125])).2
          = .ok Value.undefined := by
  refine ⟨by decide, by decide, rfl, by decide, rfl⟩

/-- C7, amended: `wrapBody` returns `undefined`, which is not the empty object,
and leaves the request as it is, for every request with content length 0 or
whose Content-Type does not begin with the characters `application/json`; and
for no other request does it return `undefined`. -/
theorem wrapBody_undefined_without_json_body (unmarshal : Unmarshal) (req : Request) :
    ((req.ContentLength = 0
        ∨ HasPrefix (Header.Get req.Header "Content-Type") "application/json" = false) →
      wrapBody unmarshal req = (req, .ok Value.undefined)
        ∧ (wrapBody unmarshal req).2 ≠ .ok (Value.object []))
      ∧ ((wrapBody unmarshal req).2 = .ok Value.undefined →
          req.ContentLength = 0
            ∨ HasPrefix (Header.Get req.Header "Content-Type") "application/json" = false) := by
  constructor
  · intro h
    have hw : wrapBody unmarshal req = (req, .ok Value.undefined) := by
      unfold wrapBody
      rcases h with h | h
      · simp [h]
      · simp [h]
    refine ⟨hw, ?_⟩
    rw [hw]
    intro hc
    cases hc
  · intro hu
    by_cases hlen : req.ContentLength = 0
    · exact Or.inl hlen
    · right
      by_cases hct : HasPrefix (Header.Get req.Header "Content-Type") "application/json" = true
      · exfalso
        simp only [wrapBody, hlen, hct, ReadAll] at hu
        cases he : req.Body.err with
        | some e =>
          rw [he] at hu
          simp [hlen] at hu
        | none =>
          rw [he] at hu
          rcases hun : unmarshal req.Body.data (some []) with ⟨out, (_ | e)⟩
          · rw [hun] at hu
            cases out <;> simp [must, ToValueMap, hlen] at hu
          · rw [hun] at hu
            simp [must, hlen] at hu
      · simpa using hct

theorem wrapBody_undefined_without_json_body_witness :
    HasPrefix (Header.Get (bodyRequest "text/plain" [123, 125]).Header "Content-Type")
        "application/json" = false
      ∧ wrapBody sampleUnmarshal (bodyRequest "text/plain" [123, 125])
          = (bodyRequest "text/plain" [123, 125], .ok Value.undefined)
      ∧ (wrapBody sampleUnmarshal (bodyRequest "text/plain" [123, 125])).2
          ≠ .ok (Value.object []) :=
  ⟨by decide,
   ((wrapBody_undefined_without_json_body sampleUnmarshal
      (bodyRequest "text/plain" [123, 125])).1 (Or.inr (by decide))).1,
   ((wrapBody_undefined_without_json_body sampleUnmarshal
      (bodyRequest "text/plain" [123, 125])).1 (Or.inr (by decide))).2⟩

/-- C8: for every request with non-zero content length and a Content-Type
beginning with `application/json`, a failed read of the body stream makes
`wrapBody` raise with that error, and so does an error of `json.Unmarshal` on
the bytes read (as for bytes that are not valid JSON): no value is returned. -/
theorem wrapBody_raises_on_read_or_parse_failure (unmarshal : Unmarshal) (req : Request)
    (hlen : req.ContentLength ≠ 0)
    (hct : HasPrefix (Header.Get req.Header "Content-Type") "application/json" = true) :
    (∀ e, req.Body.err = some e → (wrapBody unmarshal req).2 = .error (throw e))
      ∧ (req.Body.err = none →
          ∀ e, (unmarshal req.Body.data (some [])).2 = some e →
            (wrapBody unmarshal req).2 = .error (throw e)) := by
  constructor
  · intro e he
    simp [wrapBody, hlen, hct, ReadAll, he]
  · intro hnone e he
    simp only [wrapBody, hlen, hct, ReadAll, hnone]
    rcases hu : unmarshal req.Body.data (some []) with ⟨out, err⟩
    rw [hu] at he
    simp only at he
    subst he
    simp [must, hlen]

theorem wrapBody_raises_on_read_or_parse_failure_witness :
    (∀ e, failingRequest.Body.err = some e →
        (wrapBody sampleUnmarshal failingRequest).2 = .error (throw e))
      ∧ (failingRequest.Body.err = none →
          ∀ e, (sampleUnmarshal failingRequest.Body.data (some [])).2 = some e →
            (wrapBody sampleUnmarshal failingRequest).2 = .error (throw e)) :=
  wrapBody_raises_on_read_or_parse_failure sampleUnmarshal failingRequest
    (by decide) (by decide)

/-! ## Caching of the derived fields -/

theorem read_of_done (unmarshal : Unmarshal) (req : request) (f : Field)
    (h : req.done f = true) :
    req.read unmarshal f = (req, .ok (req.cache f)) := by
  obtain ⟨r, po, pv, qo, qv, co, cv, bo, bv, rn⟩ := req
  cases f <;> simp only [request.done] at h <;> subst h <;>
    simp [request.read, request.params, request.query, request.cookies, request.body,
      onceDo, request.cache, Except.map]

theorem wrapBody_reads (unmarshal : Unmarshal) (r : Request) :
    (wrapBody unmarshal r).1.Body.reads ≤ r.Body.reads + 1 := by
  unfold wrapBody
  split
  · simp
  · simp only [ReadAll]
    split
    · simp [Body.Close]
    · split <;> simp [Body.Close]

theorem read_of_not_done (unmarshal : Unmarshal) (req : request) (f : Field)
    (h : req.done f = false) :
    (req.read unmarshal f).1.done f = true
      ∧ (req.read unmarshal f).1.runsOf f = req.runsOf f + 1
      ∧ (∀ v, (req.read unmarshal f).2 = .ok v → (req.read unmarshal f).1.cache f = v)
      ∧ (∀ g, g ≠ f → (req.read unmarshal f).1.done g = req.done g
          ∧ (req.read unmarshal f).1.cache g = req.cache g
          ∧ (req.read unmarshal f).1.runsOf g = req.runsOf g)
      ∧ (req.read unmarshal f).1.Request.Body.reads
          ≤ req.Request.Body.reads + (if f = Field.body then 1 else 0) := by
  obtain ⟨r, po, pv, qo, qv, co, cv, bo, bv, rn⟩ := req
  cases f <;> simp only [request.done] at h <;> subst h
  · refine ⟨rfl, rfl, ?_, ?_, by simp [request.read, request.params, onceDo]⟩
    · intro v hv
      simp [request.read, request.params, onceDo, Except.map] at hv
      simp [request.read, request.params, onceDo, request.cache, ← hv]
    · intro g hg
      cases g <;> first | exact absurd rfl hg | exact ⟨rfl, rfl, rfl⟩
  · refine ⟨rfl, rfl, ?_, ?_, by simp [request.read, request.query, onceDo]⟩
    · intro v hv
      simp [request.read, request.query, onceDo, Except.map] at hv
      simp [request.read, request.query, onceDo, request.cache, ← hv]
    · intro g hg
      cases g <;> first | exact absurd rfl hg | exact ⟨rfl, rfl, rfl⟩
  · refine ⟨rfl, rfl, ?_, ?_, by simp [request.read, request.cookies, onceDo]⟩
    · intro v hv
      simp [request.read, request.cookies, onceDo, Except.map] at hv
      simp [request.read, request.cookies, onceDo, request.cache, ← hv]
    · intro g hg
      cases g <;> first | exact absurd rfl hg | exact ⟨rfl, rfl, rfl⟩
  · have hb := wrapBody_reads unmarshal r
    simp only [request.read, request.body, onceDo, request.done, request.runsOf,
      request.cache]
    rcases hw : wrapBody unmarshal r with ⟨r', (p | v)⟩
    · rw [hw] at hb
      refine ⟨rfl, rfl, ?_, ?_, by simpa using hb⟩
      · intro v hv
        simp at hv
      · intro g hg
        cases g <;> first | exact absurd rfl hg | exact ⟨rfl, rfl, rfl⟩
    · rw [hw] at hb
      refine ⟨rfl, rfl, ?_, ?_, by simpa using hb⟩
      · intro v' hv
        simp at hv
        simp [← hv]
      · intro g hg
        cases g <;> first | exact absurd rfl hg | exact ⟨rfl, rfl, rfl⟩

theorem reads_cons (unmarshal : Unmarshal) (req : request) (f : Field) (rest : List Field) :
    request.reads unmarshal req (f :: rest)
      = ((request.reads unmarshal (req.read unmarshal f).1 rest).1,
          (req.read unmarshal f).2 :: (request.reads unmarshal (req.read unmarshal f).1 rest).2) :=
  rfl

theorem reads_spec (unmarshal : Unmarshal) (fs : List Field) : ∀ req : request,
    (∀ f, (request.reads unmarshal req fs).1.runsOf f
        = req.runsOf f + (if req.done f = false ∧ f ∈ fs then 1 else 0))
      ∧ (∀ f, req.done f = true → (request.reads unmarshal req fs).1.cache f = req.cache f)
      ∧ (∀ (j : Nat) (f : Field), fs[j]? = some f → req.done f = true →
          (request.reads unmarshal req fs).2[j]? = some (Except.ok (req.cache f)))
      ∧ (∀ (i j : Nat) (f : Field) (v : Option Value), i < j →
          fs[i]? = some f → fs[j]? = some f →
          (request.reads unmarshal req fs).2[i]? = some (Except.ok v) →
          (request.reads unmarshal req fs).2[j]? = some (Except.ok v))
      ∧ (request.reads unmarshal req fs).1.Request.Body.reads
          ≤ req.Request.Body.reads
            + (if req.done Field.body = false ∧ Field.body ∈ fs then 1 else 0) := by
  induction fs with
  | nil =>
    intro req
    simp [request.reads]
  | cons f rest ih =>
    intro req
    rw [reads_cons]
    by_cases hd : req.done f = true
    · rw [read_of_done unmarshal req f hd]
      obtain ⟨iha, ihb, ihc, ihd, ihe⟩ := ih req
      refine ⟨?_, ihb, ?_, ?_, ?_⟩
      · intro g
        rw [iha g]
        by_cases hg : g = f
        · subst hg
          simp [hd]
        · simp [hg]
      · intro j g hj hg
        cases j with
        | zero =>
          simp only [List.getElem?_cons_zero, Option.some.injEq] at hj
          subst hj
          simp
        | succ j =>
          simp only [List.getElem?_cons_succ] at hj ⊢
          exact ihc j g hj hg
      · intro i j g v hij hi hj hv
        cases j with
        | zero => omega
        | succ j =>
          cases i with
          | zero =>
            simp only [List.getElem?_cons_zero, Option.some.injEq] at hi hv
            simp only [List.getElem?_cons_succ] at hj ⊢
            subst hi
            rw [ihc j f hj hd]
            simp only [Except.ok.injEq] at hv
            rw [hv]
          | succ i =>
            simp only [List.getElem?_cons_succ] at hi hj hv ⊢
            exact ihd i j g v (by omega) hi hj hv
      · refine le_trans ihe ?_
        by_cases hb : Field.body = f
        · subst hb
          simp [hd]
        · simp [hb]
    · have hd2 : req.done f = false := by simpa using hd
      obtain ⟨h1, h2, h3, h4, h5⟩ := read_of_not_done unmarshal req f hd2
      obtain ⟨iha, ihb, ihc, ihd, ihe⟩ := ih (req.read unmarshal f).1
      refine ⟨?_, ?_, ?_, ?_, ?_⟩
      · intro g
        rw [iha g]
        by_cases hg : g = f
        · subst hg
          simp [h1, h2, hd2]
        · obtain ⟨g1, -, g3⟩ := h4 g hg
          simp [g1, g3, hg]
      · intro g hg
        have hne : g ≠ f := by
          intro hgf
          subst hgf
          rw [hd2] at hg
          cases hg
        obtain ⟨g1, g2, -⟩ := h4 g hne
        rw [ihb g (by rw [g1, hg]), g2]
      · intro j g hj hg
        have hne : g ≠ f := by
          intro hgf
          subst hgf
          rw [hd2] at hg
          cases hg
        obtain ⟨g1, g2, -⟩ := h4 g hne
        cases j with
        | zero =>
          simp only [List.getElem?_cons_zero, Option.some.injEq] at hj
          exact absurd hj.symm hne
        | succ j =>
          simp only [List.getElem?_cons_succ] at hj ⊢
          rw [ihc j g hj (by rw [g1, hg]), g2]
      · intro i j g v hij hi hj hv
        cases j with
        | zero => omega
        | succ j =>
          cases i with
          | zero =>
            simp only [List.getElem?_cons_zero, Option.some.injEq] at hi hv
            simp only [List.getElem?_cons_succ] at hj ⊢
            subst hi
            rw [ihc j f hj h1, h3 v hv]
          | succ i =>
            simp only [List.getElem?_cons_succ] at hi hj hv ⊢
            exact ihd i j g v (by omega) hi hj hv
      · refine le_trans ihe ?_
        by_cases hb : Field.body = f
        · subst hb
          simp only [h1, if_true] at h5 ⊢
          simp only [hd2, List.mem_cons, true_or, and_self, if_true]
          simpa using h5
        · have hb2 : f ≠ Field.body := fun h => hb h.symm
          obtain ⟨g1, -, -⟩ := h4 Field.body hb
          simp only [hb2, if_false, Nat.add_zero] at h5
          simp only [g1, List.mem_cons, hb, false_or]
          omega

/-- C9: on one request view, whatever sequence of reads of `params`, `query`,
`cookies` and `body` is made, the computation behind each property has run
exactly once if the property was read and not at all otherwise, the body stream
was drained at most once, and a read that follows an earlier read of the same
property returns the value that earlier read returned. -/
theorem request_fields_computed_at_most_once (unmarshal : Unmarshal) (req : Request)
    (fs : List Field) :
    (∀ f, (request.reads unmarshal (newRequest req) fs).1.runsOf f = if f ∈ fs then 1 else 0)
      ∧ (request.reads unmarshal (newRequest req) fs).1.Request.Body.reads
          ≤ req.Body.reads + 1
      ∧ (∀ (i j : Nat) (f : Field) (v : Option Value), i < j →
          fs[i]? = some f → fs[j]? = some f →
          (request.reads unmarshal (newRequest req) fs).2[i]? = some (Except.ok v) →
          (request.reads unmarshal (newRequest req) fs).2[j]? = some (Except.ok v)) := by
  obtain ⟨ha, -, -, hd, he⟩ := reads_spec unmarshal fs (newRequest req)
  refine ⟨?_, ?_, hd⟩
  · intro f
    rw [ha f]
    cases f <;> simp [newRequest, request.runsOf, request.done]
  · refine le_trans he ?_
    simp only [newRequest]
    split <;> omega

theorem wrapCookies_append (cookies : List Cookie) (c : Cookie) :
    wrapCookies (cookies ++ [c]) = Object.Set (wrapCookies cookies) c.Name (.string c.Value) := by
  simp [wrapCookies, mustSet, List.foldl_append]

/-- C10, as the code has it: of the cookies `__proto__=p; a=1` only `a` becomes a
key of the object given by `wrapCookies`, although `__proto__` is a cookie name
of the list. -/
theorem wrapCookies_proto_name_counterexample :
    (∃ c ∈ [(⟨"__proto__", "p"⟩ : Cookie), ⟨"a", "1"⟩], c.Name = "__proto__")
      ∧ (wrapCookies [⟨"__proto__", "p"⟩, ⟨"a", "1"⟩]).map Prod.fst = ["a"]
      ∧ "__proto__" ∉ (wrapCookies [⟨"__proto__", "p"⟩, ⟨"a", "1"⟩]).map Prod.fst := by
  refine ⟨⟨⟨"__proto__", "p"⟩, List.mem_cons_self _ _, rfl⟩, by decide, by decide⟩

/-- C10, amended: for every list of cookies, `wrapCookies` gives an object whose
keys, each present once, are exactly the cookie names of the list other than
`__proto__`, and in which every such name holds the value of the last cookie
of the list with that name. -/
theorem wrapCookies_keys_and_last_value (cookies : List Cookie) (name : String) :
    (name ∈ (wrapCookies cookies).map Prod.fst
        ↔ name ≠ "__proto__" ∧ ∃ c ∈ cookies, c.Name = name)
      ∧ ((wrapCookies cookies).map Prod.fst).Nodup
      ∧ (name ≠ "__proto__" →
          Object.Get (wrapCookies cookies) name
            = (cookies.reverse.find? (fun c => c.Name == name)).map
                (fun c => Value.string c.Value)) := by
  induction cookies using List.reverseRecOn with
  | nil => simp [wrapCookies, NewObject, Object.Get]
  | append_singleton cs c ih =>
    obtain ⟨ih1, ih2, ih3⟩ := ih
    rw [wrapCookies_append]
    refine ⟨?_, nodup_keys_set _ _ _ ih2, ?_⟩
    · rw [mem_keys_set, ih1]
      simp only [List.mem_append, List.mem_singleton]
      constructor
      · rintro (⟨h, hp⟩ | ⟨hp, c', hc', hn⟩)
        · exact ⟨by rw [h]; exact hp, c, Or.inr rfl, h.symm⟩
        · exact ⟨hp, c', Or.inl hc', hn⟩
      · rintro ⟨hp, c', (hc' | hc'), hn⟩
        · exact Or.inr ⟨hp, c', hc', hn⟩
        · subst hc'
          exact Or.inl ⟨hn.symm, by rw [hn]; exact hp⟩
    · intro hp
      by_cases hn : c.Name = name
      · subst hn
        simp [get_set_same _ _ _ hp, List.find?_cons]
      · rw [get_set_other _ _ _ _ hn, ih3 hp]
        simp [List.find?_cons, hn]

theorem wrapCookies_keys_and_last_value_witness :
    Object.Get (wrapCookies [⟨"a", "1"⟩, ⟨"__proto__", "p"⟩, ⟨"a", "2"⟩]) "a"
      = some (Value.string "2") :=
  (wrapCookies_keys_and_last_value [⟨"a", "1"⟩, ⟨"__proto__", "p"⟩, ⟨"a", "2"⟩] "a").2.2
    (by decide)

/-! ## The response view -/

theorem lookup_store_same (h : Header) (key : String) (values : List String) :
    (h.store key values).lookup key = values := by
  induction h with
  | nil => simp [Header.store, Header.lookup]
  | cons e rest ih =>
    obtain ⟨k, vs⟩ := e
    by_cases hk : k = key
    · simp [Header.store, Header.lookup, hk]
    · simp only [Header.store, hk, if_false]
      simp only [Header.lookup] at ih ⊢
      simpa [List.find?_cons, hk] using ih

theorem values_set (canonical : Canonical) (h : Header) (field value : String) :
    Header.Values canonical (Header.Set canonical h field value) field = [value] := by
  simp [Header.Values, Header.Set, lookup_store_same]

theorem values_add (canonical : Canonical) (h : Header) (field value : String) :
    Header.Values canonical (Header.Add canonical h field value) field
      = Header.Values canonical h field ++ [value] := by
  simp [Header.Values, Header.Add, lookup_store_same]

theorem write_header {w : ResponseWriter} (b : List UInt8) :
    (w.Write b).1.header = w.header := by
  unfold ResponseWriter.Write ResponseWriter.WriteHeader
  cases hw : w.wroteHeader <;> cases he : w.writeErr <;> simp [hw, he]

theorem write_sent {w : ResponseWriter} (b : List UInt8) (hw : w.wroteHeader = false) :
    (w.Write b).1.sent = w.header ∧ (w.Write b).1.code = 200
      ∧ (w.Write b).1.wroteHeader = true := by
  unfold ResponseWriter.Write ResponseWriter.WriteHeader
  cases he : w.writeErr <;> simp [hw, he]

/-- C11: for every value `v`, `send(v)` is `html` of the bytes of `v` when `v` is
a string, `binary(v)` when `v` is a byte buffer and `json(v)` for every other
value: the type switch of the code and the dispatch the specification words
give the same response and the same outcome. -/
theorem send_dispatches_by_shape {α : Type} (canonical : Canonical) (marshal : Marshal α)
    (resp : response) (v : Any α) :
    response.send canonical marshal resp v = sendBySpec canonical marshal resp v := by
  cases v <;> rfl

theorem html_fst (canonical : Canonical) (resp : response) (b : List UInt8) :
    (response.html canonical resp b).1
      = (ResponseWriter.Write
          (response.contentType canonical resp "text/html; charset=utf-8") b).1 := by
  unfold response.html response.contentType
  simp only []
  split <;> rfl

theorem binary_fst (canonical : Canonical) (resp : response) (b : List UInt8) :
    (response.binary canonical resp b).1
      = (ResponseWriter.Write
          (response.contentType canonical resp "application/octet-stream") b).1 := by
  unfold response.binary response.contentType
  simp only []
  split <;> rfl

theorem textf_fst {α : Type} (canonical : Canonical) (fmtr : Formatter α) (resp : response)
    (format : String) (args : List (Any α)) :
    (response.textf canonical fmtr resp format args).1
      = (ResponseWriter.Write
          (response.contentType canonical resp "text/plain; charset=utf-8")
          (bytesOf (Sprintf fmtr format args))).1 := by
  unfold response.textf response.contentType
  simp only []
  split <;> rfl

theorem json_fst {α : Type} (canonical : Canonical) (marshal : Marshal α) (resp : response)
    (v : Any α) :
    (response.json canonical marshal resp v).1
      = (match (marshal v).2 with
        | some _ => response.contentType canonical resp "application/json; charset=utf-8"
        | none => (ResponseWriter.Write
            (response.contentType canonical resp "application/json; charset=utf-8")
            (marshal v).1).1) := by
  unfold response.json response.contentType
  rcases marshal v with ⟨bin, err⟩
  cases err with
  | some e => rfl
  | none =>
    simp only [must]
    split <;> rfl

/-- C12: after `json`, `text`, `html` or `binary` the Content-Type field of the
header holds the one canonical value of the operation, whatever it held before;
and on a response whose header was not written yet, the fields fixed by the
write of the operation already hold that value: the field is set before the
body is written. -/
theorem body_writers_set_content_type {α : Type} (canonical : Canonical)
    (marshal : Marshal α) (fmtr : Formatter α) (resp : response) (v : Any α)
    (format : String) (args : List (Any α)) (b : List UInt8) :
    (Header.Values canonical (response.json canonical marshal resp v).1.header "Content-Type"
          = ["application/json; charset=utf-8"]
        ∧ Header.Values canonical (response.textf canonical fmtr resp format args).1.header
            "Content-Type" = ["text/plain; charset=utf-8"]
        ∧ Header.Values canonical (response.html canonical resp b).1.header "Content-Type"
            = ["text/html; charset=utf-8"]
        ∧ Header.Values canonical (response.binary canonical resp b).1.header "Content-Type"
            = ["application/octet-stream"])
      ∧ (resp.wroteHeader = false →
          ((response.json canonical marshal resp v).1.wroteHeader = true →
              Header.Values canonical (response.json canonical marshal resp v).1.sent
                "Content-Type" = ["application/json; charset=utf-8"])
            ∧ Header.Values canonical (response.textf canonical fmtr resp format args).1.sent
                "Content-Type" = ["text/plain; charset=utf-8"]
            ∧ Header.Values canonical (response.html canonical resp b).1.sent "Content-Type"
                = ["text/html; charset=utf-8"]
            ∧ Header.Values canonical (response.binary canonical resp b).1.sent "Content-Type"
                = ["application/octet-stream"]) := by
  have key : ∀ (ct : String) (body : List UInt8),
      Header.Values canonical
        (ResponseWriter.Write (response.contentType canonical resp ct) body).1.header
        "Content-Type" = [ct] := by
    intro ct body
    rw [write_header]
    exact values_set canonical resp.header "Content-Type" ct
  have key2 : ∀ (ct : String) (body : List UInt8), resp.wroteHeader = false →
      Header.Values canonical
        (ResponseWriter.Write (response.contentType canonical resp ct) body).1.sent
        "Content-Type" = [ct] := by
    intro ct body hr
    rw [(write_sent body (by simpa [response.contentType] using hr)).1]
    exact values_set canonical resp.header "Content-Type" ct
  refine ⟨⟨?_, ?_, ?_, ?_⟩, ?_⟩
  · rw [json_fst]
    split
    · exact values_set canonical resp.header "Content-Type" _
    · exact key _ _
  · rw [textf_fst]
    exact key _ _
  · rw [html_fst]
    exact key _ _
  · rw [binary_fst]
    exact key _ _
  · intro hw
    refine ⟨?_, ?_, ?_, ?_⟩
    · rw [json_fst]
      split
      · intro hc
        simp [response.contentType, hw] at hc
      · intro _
        exact key2 _ _ hw
    · rw [textf_fst]
      exact key2 _ _ hw
    · rw [html_fst]
      exact key2 _ _ hw
    · rw [binary_fst]
      exact key2 _ _ hw

theorem body_writers_set_content_type_witness :
    NewRecorder.wroteHeader = false ∧
    Header.Values id (response.html id (response.contentType id NewRecorder "image/png")
        (bytesOf "<p>hi</p>")).1.header "Content-Type" = ["text/html; charset=utf-8"] ∧
    Header.Values id (response.html id (response.contentType id NewRecorder "image/png")
        (bytesOf "<p>hi</p>")).1.sent "Content-Type" = ["text/html; charset=utf-8"] :=
  ⟨rfl,
   (body_writers_set_content_type id (fun _ => ([], none)) (missingOperand Unit)
      (response.contentType id NewRecorder "image/png") (.string "") "" []
      (bytesOf "<p>hi</p>")).1.2.2.1,
   ((body_writers_set_content_type id (fun _ => ([], none)) (missingOperand Unit)
      (response.contentType id NewRecorder "image/png") (.string "") "" []
      (bytesOf "<p>hi</p>")).2 rfl).2.2.1⟩

/-- C14: for every header field, `append(f, v)` leaves the field with the values
it had followed by `v`, and `set(f, v)` leaves it with the single value `v`. -/
theorem append_keeps_values_and_set_replaces (canonical : Canonical) (resp : response)
    (field value : String) :
    Header.Values canonical (response.append canonical resp field value).header field
        = Header.Values canonical resp.header field ++ [value]
      ∧ Header.Values canonical (response.set canonical resp field value).header field
        = [value] := by
  exact ⟨values_add canonical resp.header field value,
    values_set canonical resp.header field value⟩

/-- C15: `redirect(308, "http://example.com")` on a recorder to which nothing was
written: the status is 308 and the header map holds the location, but the
fields fixed for delivery by `WriteHeader`, which ran first, hold no Location. -/
theorem redirect_location_not_delivered :
    (response.redirect id NewRecorder 308 "http://example.com").code = 308
      ∧ Header.Values id (response.redirect id NewRecorder 308 "http://example.com").header
          "Location" = ["http://example.com"]
      ∧ Header.Values id (response.redirect id NewRecorder 308 "http://example.com").sent
          "Location" = [] := by
  decide

/-! ## The echo route -/

theorem doPrintf_literal {α : Type} (fmtr : Formatter α) (cs : List Char) (argNum : Nat)
    (h : '%' ∉ cs) : doPrintf fmtr [] cs 0 argNum = String.mk cs := by
  induction cs with
  | nil => simp [doPrintf]
  | cons c rest ih =>
    simp only [List.mem_cons, not_or] at h
    have hc : c ≠ '%' := fun e => h.1 e.symm
    simp only [doPrintf, hc, if_false, ih h.2]
    rfl

theorem sprintf_literal {α : Type} (fmtr : Formatter α) (m : String) (h : '%' ∉ m.data) :
    Sprintf fmtr m [] = m := by
  unfold Sprintf
  rw [doPrintf_literal fmtr m.data 0 h]

theorem echo_on_message {α : Type} (canonical : Canonical) (fmtr : Formatter α)
    (m : String) (req : Request) (rw : ResponseWriter)
    (hq : (req.Query.map Prod.fst).Nodup) (hmsg : ("message", [m]) ∈ req.Query)
    (he : rw.writeErr = none) :
    (middlewareChain.callOne (⟨newRequest req, rw⟩ : Exchange) (newEcho canonical fmtr)).1.res
        = (ResponseWriter.Write (response.contentType canonical rw "text/plain; charset=utf-8")
            (bytesOf (Sprintf fmtr m []))).1
      ∧ (middlewareChain.callOne (⟨newRequest req, rw⟩ : Exchange)
          (newEcho canonical fmtr)).2 = .ok false := by
  have hget := wrapValues_get req.Query hq "message" [m] (by decide) hmsg
  simp only [List.length_singleton, if_true, List.headD_cons] at hget
  have hwe : (ResponseWriter.Write (response.contentType canonical rw
      "text/plain; charset=utf-8") (bytesOf (Sprintf fmtr m []))).2 = none := by
    unfold ResponseWriter.Write ResponseWriter.WriteHeader response.contentType
    cases hw : rw.wroteHeader <;> simp [hw, he]
  have htext : response.textf canonical fmtr rw m []
      = ((ResponseWriter.Write (response.contentType canonical rw "text/plain; charset=utf-8")
            (bytesOf (Sprintf fmtr m []))).1, .ok ()) := by
    unfold response.contentType at hwe
    unfold response.textf response.contentType
    simp only []
    rw [hwe]
    rfl
  have hecho : newEcho canonical fmtr (⟨newRequest req, rw⟩ : Exchange)
      = [.effect (fun _ => ⟨(newRequest req).query.1,
          (ResponseWriter.Write (response.contentType canonical rw "text/plain; charset=utf-8")
            (bytesOf (Sprintf fmtr m []))).1⟩)] := by
    have hq2 : (newRequest req).query
        = ((newRequest req).query.1, .ok (some (wrapValues req.Query))) := rfl
    simp only [newEcho]
    rw [hq2]
    simp only [hget, queryText, htext]
  simp [middlewareChain.callOne, hecho, runSteps]


/-- C13, as amended: for every string `m` without a percent sign, the echo route
(a middleware that reads `query.message = m` and writes it with `text(m)`, no
further argument) answers a request not yet written to with the bytes of `m` as
body, status 200 and Content-Type `text/plain; charset=utf-8`; whatever `fmt`
does at a `%` plays no part then. -/
theorem echo_route_answers_plain_message {α : Type} (canonical : Canonical)
    (fmtr : Formatter α) (m : String) (req : Request) (rw : ResponseWriter)
    (hm : '%' ∉ m.data)
    (hq : (req.Query.map Prod.fst).Nodup) (hmsg : ("message", [m]) ∈ req.Query)
    (hw : rw.wroteHeader = false) (he : rw.writeErr = none) (hb : rw.body = []) :
    (((newRouter Exchange).handleMethod "GET" "/echo" [newEcho canonical fmtr]).dispatch
        ⟨"GET", "/echo", [newEcho canonical fmtr]⟩ ⟨newRequest req, rw⟩).panic = none
      ∧ (((newRouter Exchange).handleMethod "GET" "/echo" [newEcho canonical fmtr]).dispatch
        ⟨"GET", "/echo", [newEcho canonical fmtr]⟩ ⟨newRequest req, rw⟩).world.res.body
          = bytesOf m
      ∧ (((newRouter Exchange).handleMethod "GET" "/echo" [newEcho canonical fmtr]).dispatch
        ⟨"GET", "/echo", [newEcho canonical fmtr]⟩ ⟨newRequest req, rw⟩).world.res.code = 200
      ∧ Header.Values canonical
          (((newRouter Exchange).handleMethod "GET" "/echo" [newEcho canonical fmtr]).dispatch
            ⟨"GET", "/echo", [newEcho canonical fmtr]⟩ ⟨newRequest req, rw⟩).world.res.sent
          "Content-Type" = ["text/plain; charset=utf-8"] := by
  obtain ⟨h1, h2⟩ := echo_on_message canonical fmtr m req rw hq hmsg he
  rw [sprintf_literal fmtr m hm] at h1
  have hrun : ((newRouter Exchange).handleMethod "GET" "/echo" [newEcho canonical fmtr]).dispatch
        ⟨"GET", "/echo", [newEcho canonical fmtr]⟩ ⟨newRequest req, rw⟩
      = ⟨(middlewareChain.callOne (⟨newRequest req, rw⟩ : Exchange)
            (newEcho canonical fmtr)).1,
          [⟨newEcho canonical fmtr, .ok false⟩], none⟩ := by
    unfold router.dispatch router.handle middlewareChain.call
    rw [all_eq_append]
    simp only [router.handleMethod, newRouter, List.nil_append, List.map_cons, List.map_nil,
      middlewareChain.loop]
    rcases hc : middlewareChain.callOne (⟨newRequest req, rw⟩ : Exchange)
      (newEcho canonical fmtr) with ⟨w', r⟩
    rw [hc] at h2
    simp only at h2
    subst h2
    rfl
  rw [hrun]
  simp only [h1]
  have hws := write_sent (w := response.contentType canonical rw "text/plain; charset=utf-8")
    (bytesOf m) (by simpa [response.contentType] using hw)
  refine ⟨trivial, ?_, hws.2.1, ?_⟩
  · unfold ResponseWriter.Write ResponseWriter.WriteHeader response.contentType
    simp [hw, he, hb]
  · rw [hws.1]
    exact values_set canonical rw.header "Content-Type" _

theorem echo_route_answers_plain_message_witness :
    (((newRouter Exchange).handleMethod "GET" "/echo"
          [newEcho id (missingOperand Unit)]).dispatch
        ⟨"GET", "/echo", [newEcho id (missingOperand Unit)]⟩
        ⟨newRequest (echoRequest "dummy"), NewRecorder⟩).panic = none
      ∧ (((newRouter Exchange).handleMethod "GET" "/echo"
          [newEcho id (missingOperand Unit)]).dispatch
        ⟨"GET", "/echo", [newEcho id (missingOperand Unit)]⟩
        ⟨newRequest (echoRequest "dummy"), NewRecorder⟩).world.res.body = bytesOf "dummy"
      ∧ (((newRouter Exchange).handleMethod "GET" "/echo"
          [newEcho id (missingOperand Unit)]).dispatch
        ⟨"GET", "/echo", [newEcho id (missingOperand Unit)]⟩
        ⟨newRequest (echoRequest "dummy"), NewRecorder⟩).world.res.code = 200
      ∧ Header.Values id
          (((newRouter Exchange).handleMethod "GET" "/echo"
              [newEcho id (missingOperand Unit)]).dispatch
            ⟨"GET", "/echo", [newEcho id (missingOperand Unit)]⟩
            ⟨newRequest (echoRequest "dummy"), NewRecorder⟩).world.res.sent
          "Content-Type" = ["text/plain; charset=utf-8"] :=
  echo_route_answers_plain_message id (missingOperand Unit) "dummy" (echoRequest "dummy")
    NewRecorder (by decide) (by decide) (by decide) rfl rfl rfl

/-- C13 fails as stated: for `m = "100%"` the echo route answers with the body
`100%!(NOVERB)`, which is not `m`, since `text` takes `m` as a format. -/
theorem echo_route_percent_counterexample :
    (((newRouter Exchange).handleMethod "GET" "/echo"
          [newEcho id (missingOperand Unit)]).dispatch
        ⟨"GET", "/echo", [newEcho id (missingOperand Unit)]⟩
        ⟨newRequest (echoRequest "100%"), NewRecorder⟩).world.res.body
        = bytesOf "100%!(NOVERB)"
      ∧ (((newRouter Exchange).handleMethod "GET" "/echo"
          [newEcho id (missingOperand Unit)]).dispatch
        ⟨"GET", "/echo", [newEcho id (missingOperand Unit)]⟩
        ⟨newRequest (echoRequest "100%"), NewRecorder⟩).world.res.body
        ≠ bytesOf "100%" := by
  decide

/-! ## The application: `listen` and the address properties -/

theorem argsTyped_eq {σ : Type} (args : List (Arg σ)) :
    argsTyped args = (firstTyped args && secondTyped args) := rfl

theorem listenPort_eq {σ : Type} (args : List (Arg σ)) :
    application.listenPort args { host := "", hostname := "", port := 0 } 0
      = if firstTyped args then
          .ok ({ host := "", hostname := "", port := portArg args }, portIndex args)
        else .error .nilCall := by
  unfold application.listenPort portArg portIndex firstTyped
  cases h0 : args[0]? with
  | none => simp
  | some a0 =>
    cases ht : a0.ExportType with
    | none => simp [Arg.kindIs, ht]
    | some k =>
      by_cases hk : k = .Int64
      · subst hk
        simp [Arg.kindIs, ht]
      · have hb : (k == Kind.Int64) = false := by simpa using hk
        simp [Arg.kindIs, ht, hk, hb]

theorem listenHostname_eq {σ : Type} (args : List (Arg σ)) (p : Int) :
    application.listenHostname args { host := "", hostname := "", port := p } (portIndex args)
      = if secondTyped args then
          .ok ({ host := "", hostname := hostnameArg args, port := p }, restIndex args)
        else .error .nilCall := by
  unfold application.listenHostname hostnameArg restIndex secondTyped
  cases h0 : args[portIndex args]? with
  | none => simp
  | some a0 =>
    cases ht : a0.ExportType with
    | none => simp [Arg.kindIs, ht]
    | some k =>
      by_cases hk : k = .String
      · subst hk
        simp [Arg.kindIs, ht]
      · have hb : (k == Kind.String) = false := by simpa using hk
        simp [Arg.kindIs, ht, hk, hb]

theorem listen_eq_listenBySpec {σ : Type} (netListen : Listen) (app : application σ)
    (args : List (Arg σ)) (w : σ) :
    app.listen netListen args w = listenBySpec netListen app args w := by
  obtain ⟨rt, rn, srv, ad⟩ := app
  unfold application.listen listenBySpec
  simp only [listenPort_eq, argsTyped_eq]
  cases h1 : firstTyped args with
  | false => simp
  | true =>
    simp only [if_true, Bool.true_and, listenHostname_eq]
    cases h2 : secondTyped args with
    | false => simp
    | true =>
      simp only [if_true]
      unfold bindAddress reportedAddress callbackArg server.listenAndServe
      cases hl : netListen (JoinHostPort (hostnameArg args) (Itoa (portArg args))) with
      | error err => simp [hl]
      | ok tcp =>
        simp only [hl]
        split_ifs <;> simp_all [defaultHost] <;> (split <;> simp_all)

theorem listen_of_untyped {σ : Type} (netListen : Listen) (app : application σ)
    (args : List (Arg σ)) (w : σ) (hargs : argsTyped args = false) :
    app.listen netListen args w = (app, w, .error .nilCall) := by
  rw [listen_eq_listenBySpec]
  simp [listenBySpec, hargs]

theorem listen_of_bind_ok {σ : Type} (netListen : Listen) (app : application σ)
    (args : List (Arg σ)) (w : σ) (tcp : TCPAddr) (hargs : argsTyped args = true)
    (hbind : netListen (bindAddress args) = .ok tcp) :
    (app.listen netListen args w).1.address = some (reportedAddress args tcp) ∧
    (app.listen netListen args w).1.server.started
      = app.server.started ++ [⟨bindAddress args, tcp⟩] ∧
    (app.listen netListen args w).1.server.stopCh = app.server.stopCh + 1 ∧
    (app.listen netListen args w).1.runner = app.runner := by
  rw [listen_eq_listenBySpec]
  unfold listenBySpec
  simp only [hargs, if_true, hbind]
  cases callbackArg args with
  | none => exact ⟨rfl, rfl, rfl, rfl⟩
  | some cb =>
    simp only []
    split <;> exact ⟨rfl, rfl, rfl, rfl⟩

theorem listen_of_bind_error {σ : Type} (netListen : Listen) (app : application σ)
    (args : List (Arg σ)) (w : σ) (err : GoError) (hargs : argsTyped args = true)
    (hbind : netListen (bindAddress args) = .error err) :
    app.listen netListen args w = (app, w, .error (throw err)) := by
  rw [listen_eq_listenBySpec]
  unfold listenBySpec
  simp only [hargs, if_true, hbind]

theorem listen_of_callback {σ : Type} (netListen : Listen) (app : application σ)
    (args : List (Arg σ)) (w : σ) (tcp : TCPAddr) (cb : σ → σ × Option GoError)
    (hargs : argsTyped args = true)
    (hbind : netListen (bindAddress args) = .ok tcp) (hcb : callbackArg args = some cb) :
    (app.listen netListen args w).2.1 = (app.runner (fun w => cb w) w).1 ∧
    (app.listen netListen args w).2.2
      = (match (app.runner (fun w => cb w) w).2 with
         | some p => .error p
         | none => .ok ()) := by
  rw [listen_eq_listenBySpec]
  unfold listenBySpec
  simp only [hargs, if_true, hbind, hcb]
  split <;> rename_i h <;> simp [h]

theorem listen_of_no_callback {σ : Type} (netListen : Listen) (app : application σ)
    (args : List (Arg σ)) (w : σ) (tcp : TCPAddr) (hargs : argsTyped args = true)
    (hbind : netListen (bindAddress args) = .ok tcp) (hcb : callbackArg args = none) :
    (app.listen netListen args w).2 = (w, .ok ()) := by
  rw [listen_eq_listenBySpec]
  unfold listenBySpec
  simp only [hargs, if_true, hbind, hcb]

theorem syncRunner_world {σ : Type} (fn : σ → σ × Option GoError) (w : σ) :
    (syncRunner fn w).1 = (fn w).1 := by
  unfold syncRunner
  split <;> rename_i h <;> simp [h]

theorem joinHostPort_localhost (port : String) :
    JoinHostPort defaultHost port = "localhost:" ++ port := by
  have h : ¬ (':' ∈ defaultHost.data) := by decide
  simp [JoinHostPort, h, defaultHost]

theorem joinHostPort_empty (port : String) : JoinHostPort "" port = ":" ++ port := by
  simp [JoinHostPort]

theorem throw_cases (err : GoError) :
    (∃ msg, throw err = .exception msg) ∨ throw err = .goError err := by
  cases err with
  | exception msg => exact Or.inl ⟨msg, rfl⟩
  | other msg => exact Or.inr rfl

theorem hostnameArg_first {σ : Type} (h : String) (rest : List (Arg σ)) :
    hostnameArg (Arg.value (.string h) :: rest) = h := by
  simp [hostnameArg, portIndex, Arg.String, Arg.ExportType]

theorem hostnameArg_second {σ : Type} (p : Int) (h : String) (rest : List (Arg σ)) :
    hostnameArg (Arg.value (.int p) :: Arg.value (.string h) :: rest) = h := by
  simp [hostnameArg, portIndex, Arg.String, Arg.ExportType]

theorem portArg_first {σ : Type} (p : Int) (rest : List (Arg σ)) :
    portArg (Arg.value (.int p) :: rest) = p := by
  simp [portArg, Arg.ToInteger, Arg.ExportType]

theorem callbackArg_last {σ : Type} (p : Int) (h : String) (cb : σ → σ × Option GoError) :
    callbackArg [Arg.function cb] = some cb ∧
    callbackArg [Arg.value (.int p), Arg.function cb] = some cb ∧
    callbackArg [Arg.value (.string h), Arg.function cb] = some cb ∧
    callbackArg [Arg.value (.int p), Arg.value (.string h), Arg.function cb] = some cb :=
  ⟨rfl, rfl, rfl, rfl⟩

/-- C16, as the code has it: `listen("")` succeeds with a string argument given,
and the hostname reported is `"localhost"`, not the argument. -/
theorem listen_empty_hostname_counterexample :
    Arg.ExportType (Arg.value (.string "") : Arg Nat) = some Kind.String ∧
    (sampleApplication.listen bindAny [Arg.value (.string "")] 0).2.2 = .ok () ∧
    (sampleApplication.listen bindAny [Arg.value (.string "")] 0).1.hostname
      = Value.string "localhost" ∧
    Value.string "localhost" ≠ Value.string "" := by
  refine ⟨rfl, rfl, rfl, ?_⟩
  simp

/-- C16, amended: after a `listen` that got to its bind (no argument asked for its
type is `undefined` or `null`) and whose bind succeeded, `hostname` is the
hostname argument (a string in first position, or in second position after an
integer) when that is not empty and `"localhost"` otherwise, and `port` is the
port argument (an integer in first position) when that is not 0 and the port
the listener is bound to otherwise, so not 0 when the listener's port is not;
with no arguments `hostname` is `"localhost"` and `host` is `"localhost:"`
followed by the port bound. -/
theorem listen_reports_hostname_and_port {σ : Type} (netListen : Listen)
    (app : application σ) (args : List (Arg σ)) (w : σ) (tcp : TCPAddr)
    (hargs : argsTyped args = true)
    (hbind : netListen (bindAddress args) = .ok tcp) :
    (app.listen netListen args w).1.hostname
      = .string (if (hostnameArg args).length = 0 then "localhost" else hostnameArg args) ∧
    (app.listen netListen args w).1.port
      = .int (if portArg args = 0 then tcp.Port else portArg args) ∧
    (tcp.Port ≠ 0 → (app.listen netListen args w).1.port ≠ .int 0) ∧
    (args = [] →
      (app.listen netListen args w).1.hostname = .string "localhost" ∧
      (app.listen netListen args w).1.port = .int tcp.Port ∧
      (app.listen netListen args w).1.host = .string ("localhost:" ++ Itoa tcp.Port)) := by
  have h := (listen_of_bind_ok netListen app args w tcp hargs hbind).1
  refine ⟨?_, ?_, ?_, ?_⟩
  · simp [application.hostname, h, reportedAddress, defaultHost]
  · simp [application.port, h, reportedAddress]
  · intro hp
    simp only [application.port, h, reportedAddress]
    split_ifs with h0
    · simpa using hp
    · simpa using h0
  · intro hargs0
    subst hargs0
    have hh : hostnameArg ([] : List (Arg σ)) = "" := rfl
    have hp : portArg ([] : List (Arg σ)) = 0 := rfl
    refine ⟨?_, ?_, ?_⟩
    · simp [application.hostname, h, reportedAddress, defaultHost, hh]
    · simp [application.port, h, reportedAddress, hp]
    · simp [application.host, h, reportedAddress, hh, hp, joinHostPort_localhost]

theorem listen_reports_hostname_and_port_witness :
    argsTyped [(Arg.value (.int 8080) : Arg Nat), Arg.value (.string "127.0.0.1")] = true ∧
    bindAny (bindAddress [(Arg.value (.int 8080) : Arg Nat), Arg.value (.string "127.0.0.1")])
      = .ok ⟨"127.0.0.1", 8080⟩ ∧
    (sampleApplication.listen bindAny
        [Arg.value (.int 8080), Arg.value (.string "127.0.0.1")] 0).1.hostname
      = .string "127.0.0.1" ∧
    (sampleApplication.listen bindAny
        [Arg.value (.int 8080), Arg.value (.string "127.0.0.1")] 0).1.port
      = .int 8080 :=
  ⟨rfl, rfl,
   (listen_reports_hostname_and_port bindAny sampleApplication
      [Arg.value (.int 8080), Arg.value (.string "127.0.0.1")] 0 ⟨"127.0.0.1", 8080⟩ rfl rfl).1,
   (listen_reports_hostname_and_port bindAny sampleApplication
      [Arg.value (.int 8080), Arg.value (.string "127.0.0.1")] 0 ⟨"127.0.0.1", 8080⟩ rfl
      rfl).2.1⟩

/-- C17, as the code has it: `listen()` hands the server the bind address `":0"`,
whose host part is empty; `"localhost"` is only the hostname reported. -/
theorem listen_no_arguments_bind_address_counterexample :
    (sampleApplication.listen bindAny [] 0).1.server.started.map Serving.requested = [":0"] ∧
    ":0" ≠ "localhost:0" ∧
    (sampleApplication.listen bindAny [] 0).1.hostname = Value.string "localhost" := by
  refine ⟨rfl, by decide, rfl⟩

/-- C17, amended: `listen` called with no hostname argument, and getting to its
bind (no argument asked for its type is `undefined` or `null`), hands the
server the bind address `":"` followed by the requested port (`":0"` with no
arguments): the host part is empty, not `"localhost"`. When the bind succeeds
the serving loop is started on that address and the hostname reported is
`"localhost"`; when it fails `listen` raises and nothing changes. -/
theorem listen_without_hostname_binds_empty_host {σ : Type} (netListen : Listen)
    (app : application σ) (args : List (Arg σ)) (w : σ)
    (hargs : argsTyped args = true) (hno : hostnameArg args = "") :
    bindAddress args = ":" ++ Itoa (portArg args) ∧
    (args = [] → bindAddress args = ":0") ∧
    (match netListen (":" ++ Itoa (portArg args)) with
     | .ok tcp =>
       (app.listen netListen args w).1.server.started
         = app.server.started ++ [⟨":" ++ Itoa (portArg args), tcp⟩] ∧
       (app.listen netListen args w).1.hostname = .string "localhost"
     | .error err => app.listen netListen args w = (app, w, .error (throw err))) := by
  have hb : bindAddress args = ":" ++ Itoa (portArg args) := by
    simp [bindAddress, hno, joinHostPort_empty]
  refine ⟨hb, ?_, ?_⟩
  · intro hargs0
    subst hargs0
    rfl
  · split
    · rename_i tcp hl
      rw [← hb] at hl
      have h := listen_of_bind_ok netListen app args w tcp hargs hl
      refine ⟨by rw [h.2.1, hb], ?_⟩
      simp [application.hostname, h.1, reportedAddress, hno, defaultHost]
    · rename_i err hl
      rw [← hb] at hl
      exact listen_of_bind_error netListen app args w err hargs hl

theorem listen_without_hostname_binds_empty_host_witness :
    argsTyped [(Arg.value (.int 8080) : Arg Nat)] = true ∧
    hostnameArg [(Arg.value (.int 8080) : Arg Nat)] = "" ∧
    bindAddress [(Arg.value (.int 8080) : Arg Nat)] = ":8080" ∧
    (sampleApplication.listen bindAny [Arg.value (.int 8080)] 0).1.server.started
      = [⟨":8080", ⟨"127.0.0.1", 8080⟩⟩] ∧
    (sampleApplication.listen bindAny [Arg.value (.int 8080)] 0).1.hostname
      = .string "localhost" :=
  ⟨rfl, rfl,
   (listen_without_hostname_binds_empty_host bindAny sampleApplication
      [Arg.value (.int 8080)] 0 rfl rfl).1,
   (listen_without_hostname_binds_empty_host bindAny sampleApplication
      [Arg.value (.int 8080)] 0 rfl rfl).2.2⟩

/-- C18, as the code has it: `listen("::1")` stores the host `"[::1]:49152"`,
which is not the hostname, a colon and the port. -/
theorem listen_ipv6_host_counterexample :
    (sampleApplication.listen bindAny [Arg.value (.string "::1")] 0).1.hostname
      = Value.string "::1" ∧
    (sampleApplication.listen bindAny [Arg.value (.string "::1")] 0).1.port
      = Value.int 49152 ∧
    (sampleApplication.listen bindAny [Arg.value (.string "::1")] 0).1.host
      = Value.string "[::1]:49152" ∧
    "[::1]:49152" ≠ "::1" ++ ":" ++ Itoa 49152 := by
  refine ⟨rfl, rfl, rfl, by decide⟩

/-- C18, amended: after a `listen` that got to its bind and whose bind succeeded,
the host stored is `net.JoinHostPort` of the hostname and the decimal port
stored: the hostname, a colon and the port when the hostname has no colon in
it, and the hostname in square brackets, a colon and the port when it has
one. -/
theorem listen_host_joins_hostname_and_port {σ : Type} (netListen : Listen)
    (app : application σ) (args : List (Arg σ)) (w : σ) (tcp : TCPAddr)
    (hargs : argsTyped args = true)
    (hbind : netListen (bindAddress args) = .ok tcp) :
    ∃ a, (app.listen netListen args w).1.address = some a ∧
      (app.listen netListen args w).1.host = .string a.host ∧
      (app.listen netListen args w).1.hostname = .string a.hostname ∧
      (app.listen netListen args w).1.port = .int a.port ∧
      a.host = JoinHostPort a.hostname (Itoa a.port) ∧
      (':' ∉ a.hostname.data → a.host = a.hostname ++ ":" ++ Itoa a.port) ∧
      (':' ∈ a.hostname.data → a.host = "[" ++ a.hostname ++ "]:" ++ Itoa a.port) := by
  have h := (listen_of_bind_ok netListen app args w tcp hargs hbind).1
  refine ⟨reportedAddress args tcp, h, ?_, ?_, ?_, rfl, ?_, ?_⟩
  · simp [application.host, h]
  · simp [application.hostname, h]
  · simp [application.port, h]
  · intro hc
    have : (reportedAddress args tcp).host
        = JoinHostPort (reportedAddress args tcp).hostname
            (Itoa (reportedAddress args tcp).port) := rfl
    rw [this]
    simp [JoinHostPort, hc]
  · intro hc
    have : (reportedAddress args tcp).host
        = JoinHostPort (reportedAddress args tcp).hostname
            (Itoa (reportedAddress args tcp).port) := rfl
    rw [this]
    simp [JoinHostPort, hc]

theorem listen_host_joins_hostname_and_port_witness :
    argsTyped [(Arg.value (.int 8080) : Arg Nat), Arg.value (.string "127.0.0.1")] = true ∧
    bindAny (bindAddress [(Arg.value (.int 8080) : Arg Nat), Arg.value (.string "127.0.0.1")])
      = .ok ⟨"127.0.0.1", 8080⟩ ∧
    ∃ a, (sampleApplication.listen bindAny
        [Arg.value (.int 8080), Arg.value (.string "127.0.0.1")] 0).1.address = some a ∧
      (sampleApplication.listen bindAny
        [Arg.value (.int 8080), Arg.value (.string "127.0.0.1")] 0).1.host = .string a.host ∧
      (sampleApplication.listen bindAny
        [Arg.value (.int 8080), Arg.value (.string "127.0.0.1")] 0).1.hostname
          = .string a.hostname ∧
      (sampleApplication.listen bindAny
        [Arg.value (.int 8080), Arg.value (.string "127.0.0.1")] 0).1.port = .int a.port ∧
      a.host = JoinHostPort a.hostname (Itoa a.port) ∧
      (':' ∉ a.hostname.data → a.host = a.hostname ++ ":" ++ Itoa a.port) ∧
      (':' ∈ a.hostname.data → a.host = "[" ++ a.hostname ++ "]:" ++ Itoa a.port) :=
  ⟨rfl, rfl, listen_host_joins_hostname_and_port bindAny sampleApplication
    [Arg.value (.int 8080), Arg.value (.string "127.0.0.1")] 0 ⟨"127.0.0.1", 8080⟩ rfl rfl⟩

theorem assertFunction_typed {σ : Type} (arg : Arg σ) (cb : σ → σ × Option GoError)
    (h : AssertFunction arg = some cb) : arg.ExportType.isSome = true := by
  cases arg with
  | value v => simp [AssertFunction] at h
  | function call => rfl

theorem callbackArg_typed {σ : Type} (args : List (Arg σ)) (cb : σ → σ × Option GoError)
    (hcb : callbackArg args = some cb) : argsTyped args = true := by
  unfold callbackArg restIndex at hcb
  unfold argsTyped firstTyped secondTyped
  unfold portIndex at hcb ⊢
  cases h0 : args[0]? with
  | none => simp [h0]
  | some a0 =>
    simp only [h0] at hcb ⊢
    cases ht0 : a0.ExportType with
    | none =>
      simp only [ht0, reduceCtorEq, if_false, h0] at hcb
      have := assertFunction_typed a0 cb hcb
      rw [ht0] at this
      simp at this
    | some k0 =>
      simp only [ht0] at hcb ⊢
      by_cases hk : k0 = Kind.Int64
      · subst hk
        simp only [if_true] at hcb ⊢
        cases h1 : args[1]? with
        | none => simp [h1]
        | some a1 =>
          simp only [h1] at hcb ⊢
          cases ht1 : a1.ExportType with
          | some k1 => simp
          | none =>
            simp only [ht1, reduceCtorEq, if_false, h1] at hcb
            have := assertFunction_typed a1 cb hcb
            rw [ht1] at this
            simp at this
      · have hne : ¬ (some k0 = some Kind.Int64) := by simpa using hk
        simp [hne, h0, ht0]

/-- C19, as the code has it: in `listen(true, callback)` the last argument is
callable and the bind succeeds, and the callback is not invoked: the argument
looked at for the callback is the first one. -/
theorem listen_last_callable_counterexample :
    ([(Arg.value (.bool true) : Arg Nat), Arg.function countingCallback].getLast?.bind
        AssertFunction).isSome = true ∧
    argsTyped [(Arg.value (.bool true) : Arg Nat), Arg.function countingCallback] = true ∧
    (sampleApplication.listen bindAny
        [Arg.value (.bool true), Arg.function countingCallback] 0).1.port = Value.int 49152 ∧
    (sampleApplication.listen bindAny
        [Arg.value (.bool true), Arg.function countingCallback] 0).2.2 = .ok () ∧
    (sampleApplication.listen bindAny
        [Arg.value (.bool true), Arg.function countingCallback] 0).2.1 = 0 ∧
    (countingCallback 0).1 = 1 := by
  refine ⟨rfl, rfl, rfl, rfl, rfl, rfl⟩

/-- C19, amended: when the argument that follows the port and hostname arguments
of `listen` is callable, a bind that succeeds is followed by one hand-over of
that callback to the runner, with the address stored; the default runner
invokes it once in place, and a panic of the runner is the outcome of
`listen`. When the bind fails `listen` raises with the script world as it
was: the callback is not invoked. -/
theorem listen_runs_callback_after_bind {σ : Type} (netListen : Listen)
    (app : application σ) (args : List (Arg σ)) (w : σ) (cb : σ → σ × Option GoError)
    (hcb : callbackArg args = some cb) :
    (match netListen (bindAddress args) with
     | .ok tcp =>
       (app.listen netListen args w).1.address = some (reportedAddress args tcp) ∧
       (app.listen netListen args w).2.1 = (app.runner (fun w => cb w) w).1 ∧
       (app.listen netListen args w).2.2
         = (match (app.runner (fun w => cb w) w).2 with
            | some p => .error p
            | none => .ok ()) ∧
       (app.runner = syncRunner → (app.listen netListen args w).2.1 = (cb w).1)
     | .error err => app.listen netListen args w = (app, w, .error (throw err))) := by
  have hargs := callbackArg_typed args cb hcb
  split
  · rename_i tcp hl
    have h := listen_of_callback netListen app args w tcp cb hargs hl hcb
    refine ⟨(listen_of_bind_ok netListen app args w tcp hargs hl).1, h.1, h.2, ?_⟩
    intro hr
    rw [h.1, hr]
    exact syncRunner_world (fun w => cb w) w
  · rename_i err hl
    exact listen_of_bind_error netListen app args w err hargs hl

theorem listen_runs_callback_after_bind_witness :
    callbackArg [(Arg.value (.int 8080) : Arg Nat), Arg.function countingCallback]
      = some countingCallback ∧
    (sampleApplication.listen bindAny
        [Arg.value (.int 8080), Arg.function countingCallback] 0).1.port = Value.int 8080 ∧
    (sampleApplication.listen bindAny
        [Arg.value (.int 8080), Arg.function countingCallback] 0).2.1 = 1 ∧
    sampleApplication.listen bindInUse
        [Arg.value (.int 8080), Arg.function countingCallback] 0
      = (sampleApplication, 0, .error (throw (.other "bind: address already in use"))) :=
  ⟨rfl, rfl,
   (listen_runs_callback_after_bind bindAny sampleApplication
      [Arg.value (.int 8080), Arg.function countingCallback] 0 countingCallback rfl).2.2.2 rfl,
   listen_runs_callback_after_bind bindInUse sampleApplication
      [Arg.value (.int 8080), Arg.function countingCallback] 0 countingCallback rfl⟩

theorem listen_address {σ : Type} (netListen : Listen) (app : application σ)
    (args : List (Arg σ)) (w : σ) :
    (app.listen netListen args w).1.address
      = (if argsTyped args then
          match netListen (bindAddress args) with
          | .ok tcp => some (reportedAddress args tcp)
          | .error _ => app.address
         else app.address) := by
  cases hargs : argsTyped args with
  | false =>
    rw [listen_of_untyped netListen app args w hargs]
    simp
  | true =>
    simp only [if_true]
    split
    · rename_i tcp hl
      exact (listen_of_bind_ok netListen app args w tcp hargs hl).1
    · rename_i err hl
      rw [listen_of_bind_error netListen app args w err hargs hl]

theorem listens_address_none {σ : Type} (calls : List (Listen × List (Arg σ))) :
    ∀ (app : application σ) (w : σ),
      (app.listens w calls).1.address = none ↔
        app.address = none ∧
          ∀ c ∈ calls, argsTyped c.2 = false ∨ ∃ err, c.1 (bindAddress c.2) = .error err := by
  induction calls with
  | nil => intro app w; simp [application.listens]
  | cons c rest ih =>
    intro app w
    obtain ⟨netListen, args⟩ := c
    have hstep : (app.listens w ((netListen, args) :: rest))
        = (app.listen netListen args w).1.listens (app.listen netListen args w).2.1 rest := by
      simp only [application.listens]
    rw [hstep, ih, listen_address]
    cases hargs : argsTyped args with
    | false => simp [hargs]
    | true =>
      cases hl : netListen (bindAddress args) with
      | error err => simp [hl, hargs]
      | ok tcp => simp [hl, hargs]

/-- C20: `host`, `hostname` and `port` are null on a new application and, on any
application, exactly when no address is stored. A `listen` whose bind fails
raises a script exception (the error itself when it is one, the error wrapped
otherwise) and leaves the application, its stored address included, and the
script world as they were; so does, with a nil dereference, a `listen` that
does not get to its bind because an argument asked for its type is `undefined`
or `null`. After any sequence of `listen` calls on a new application the
properties are null exactly when no call got to a bind that succeeded. -/
theorem address_null_until_listen_succeeds {σ : Type} (runner : RunnerFunc σ)
    (netListen : Listen) (app : application σ) (args : List (Arg σ)) (w : σ)
    (calls : List (Listen × List (Arg σ))) :
    ((newApplication runner).host = .null ∧ (newApplication runner).hostname = .null ∧
      (newApplication runner).port = .null) ∧
    ((app.host = .null ↔ app.address = none) ∧ (app.hostname = .null ↔ app.address = none) ∧
      (app.port = .null ↔ app.address = none)) ∧
    (∀ err, argsTyped args = true → netListen (bindAddress args) = .error err →
      app.listen netListen args w = (app, w, .error (throw err)) ∧
      ((∃ msg, throw err = .exception msg) ∨ throw err = .goError err)) ∧
    (argsTyped args = false → app.listen netListen args w = (app, w, .error .nilCall)) ∧
    ((((newApplication runner).listens w calls).1.host = .null ∧
        ((newApplication runner).listens w calls).1.hostname = .null ∧
        ((newApplication runner).listens w calls).1.port = .null) ↔
      ∀ c ∈ calls, argsTyped c.2 = false ∨ ∃ err, c.1 (bindAddress c.2) = .error err) := by
  have hnull : ∀ a : application σ,
      (a.host = .null ↔ a.address = none) ∧ (a.hostname = .null ↔ a.address = none) ∧
        (a.port = .null ↔ a.address = none) := by
    intro a
    cases ha : a.address <;> simp [application.host, application.hostname, application.port, ha]
  refine ⟨⟨rfl, rfl, rfl⟩, hnull app, ?_, ?_, ?_⟩
  · intro err hargs hl
    exact ⟨listen_of_bind_error netListen app args w err hargs hl, throw_cases err⟩
  · intro hargs
    exact listen_of_untyped netListen app args w hargs
  · have h := listens_address_none calls (newApplication runner) w
    have hn := hnull ((newApplication runner).listens w calls).1
    rw [hn.1, hn.2.1, hn.2.2, and_self, and_self, h]
    simp [newApplication]

theorem address_null_until_listen_succeeds_witness :
    argsTyped [(Arg.value (.int 8080) : Arg Nat)] = true ∧
    bindInUse (bindAddress [(Arg.value (.int 8080) : Arg Nat)])
      = .error (.other "bind: address already in use") ∧
    sampleApplication.listen bindInUse [Arg.value (.int 8080)] 0
      = (sampleApplication, 0, .error (.goError (.other "bind: address already in use"))) ∧
    (sampleApplication.listens 0
        [(bindInUse, [Arg.value (.int 8080)]), (bindAny, [Arg.value .null]),
          (bindAny, [Arg.value (.int 8080)])]).1.port
      = Value.int 8080 ∧
    (sampleApplication.listens 0
        [(bindInUse, [Arg.value (.int 8080)]), (bindAny, [Arg.value .null])]).1.port
      = Value.null :=
  ⟨rfl, rfl,
   ((address_null_until_listen_succeeds syncRunner bindInUse sampleApplication
      [Arg.value (.int 8080)] 0 []).2.2.1 (.other "bind: address already in use") rfl rfl).1,
   rfl, rfl⟩

/-! ## The chain: the executed middlewares, raising and repeated `next` -/

theorem loop_short_stops {σ : Type} (l : List (middleware σ)) (w : σ)
    (h : (middlewareChain.loop (l.map some) w).log.length < l.length) :
    ∃ e, (middlewareChain.loop (l.map some) w).log.getLast? = some e ∧ e.outcome ≠ .ok true := by
  induction l generalizing w with
  | nil => simp at h
  | cons m rest ih =>
    simp only [List.map_cons, middlewareChain.loop] at h ⊢
    rcases hc : middlewareChain.callOne w m with ⟨w', (p | (_ | _))⟩
    · exact ⟨⟨m, .error p⟩, by simp, by simp⟩
    · exact ⟨⟨m, .ok false⟩, by simp, by simp⟩
    · rw [hc] at h
      simp only [List.length_cons, Nat.add_lt_add_iff_right] at h
      obtain ⟨e, he, hne⟩ := ih w' h
      refine ⟨e, ?_, hne⟩
      simp only []
      rw [List.getLast?_cons, he]
      rfl

theorem loop_panic_last {σ : Type} (l : List (middleware σ)) (w : σ) (p : Panic) :
    (middlewareChain.loop (l.map some) w).panic = some p ↔
      ∃ e, (middlewareChain.loop (l.map some) w).log.getLast? = some e ∧ e.outcome = .error p := by
  induction l generalizing w with
  | nil => simp [middlewareChain.loop]
  | cons m rest ih =>
    simp only [List.map_cons, middlewareChain.loop]
    rcases hc : middlewareChain.callOne w m with ⟨w', (q | (_ | _))⟩
    · simp
    · simp
    · simp only []
      rw [ih w', List.getLast?_cons]
      cases hl : (middlewareChain.loop (List.map some rest) w').log.getLast? with
      | none => simp
      | some e => simp

/-- C26, as the code has it: a middleware that invokes its continuation and then
raises is the last one executed, although the one after it was due. -/
theorem call_raising_middleware_counterexample :
    Step.next ∈ failing "a" [] ∧ Step.next ∈ passing "b" ["a"] ∧
    (middlewareChain.call [] [] [failing "a", passing "b"]).log.length = 1 ∧
    (middlewareChain.call [] [] [failing "a", passing "b"]).world = ["a"] ∧
    (middlewareChain.call [] [] [failing "a", passing "b"]).panic = some (.exception "a") ∧
    ([] ++ [failing "a", passing "b"]).length = 2 := by
  refine ⟨?_, ?_, rfl, rfl, rfl, rfl⟩
  · exact List.Mem.tail _ (List.Mem.head _)
  · exact List.Mem.tail _ (List.Mem.head _)

/-- C26, amended: for every combined sequence `chain ++ cascade`, the middlewares
executed by `middlewareChain.call` are an initial segment of the sequence, each
executed once and in sequence order; an executed middleware that raised, or that
returned without having invoked its continuation, is the last one executed; the
segment stops short of the whole sequence only at such a middleware; and it is
the whole sequence when every executed middleware returned having invoked its
continuation. -/
theorem call_executes_up_to_first_stop {σ : Type} (chain cascade : List (middleware σ))
    (w : σ) :
    (middlewareChain.call chain w cascade).log.map Invocation.mware
        = (chain ++ cascade).take (middlewareChain.call chain w cascade).log.length
      ∧ (∀ k e, (middlewareChain.call chain w cascade).log[k]? = some e →
          e.outcome ≠ .ok true → (middlewareChain.call chain w cascade).log.length = k + 1)
      ∧ ((middlewareChain.call chain w cascade).log.length < (chain ++ cascade).length →
          ∃ e, (middlewareChain.call chain w cascade).log.getLast? = some e
            ∧ e.outcome ≠ .ok true)
      ∧ ((∀ e ∈ (middlewareChain.call chain w cascade).log, e.outcome = .ok true) →
          (middlewareChain.call chain w cascade).log.map Invocation.mware = chain ++ cascade)
      ∧ (∀ p, (middlewareChain.call chain w cascade).panic = some p ↔
          ∃ e, (middlewareChain.call chain w cascade).log.getLast? = some e
            ∧ e.outcome = .error p) := by
  refine ⟨?_, ?_, ?_, call_log_full chain cascade w, ?_⟩
  · have hp := call_log_initial chain cascade w
    rw [List.prefix_iff_eq_take] at hp
    rw [hp, List.length_map]
  · intro k e hk he
    unfold middlewareChain.call at hk ⊢
    rw [all_eq_append] at hk ⊢
    exact loop_stop_last _ w k e hk he
  · intro h
    unfold middlewareChain.call at h ⊢
    rw [all_eq_append] at h ⊢
    exact loop_short_stops _ w h
  · intro p
    unfold middlewareChain.call
    rw [all_eq_append]
    exact loop_panic_last _ w p

theorem runSteps_filter_next {σ : Type} (steps : List (Step σ)) (w : σ) :
    runSteps (steps.filter (fun s => !s.isNext)) w true = runSteps steps w true := by
  induction steps generalizing w with
  | nil => rfl
  | cons s rest ih =>
    cases s with
    | effect f =>
      have hf : (Step.effect f :: rest).filter (fun s => !s.isNext)
          = Step.effect f :: rest.filter (fun s => !s.isNext) := rfl
      rw [hf]
      simp only [runSteps]
      exact ih (f w)
    | next =>
      have hf : (Step.next :: rest).filter (fun s => !s.isNext)
          = rest.filter (fun s => !s.isNext) := rfl
      rw [hf]
      simp only [runSteps, nextClosure]
      exact ih w
    | raise p =>
      have hf : (Step.raise p :: rest).filter (fun s => !s.isNext)
          = Step.raise p :: rest.filter (fun s => !s.isNext) := rfl
      rw [hf]
      simp only [runSteps]

theorem runSteps_nextOnce {σ : Type} (steps : List (Step σ)) (w : σ) (nextCalled : Bool) :
    runSteps (nextOnce steps) w nextCalled = runSteps steps w nextCalled := by
  induction steps generalizing w with
  | nil => rfl
  | cons s rest ih =>
    cases s with
    | effect f => simp [nextOnce, runSteps, ih]
    | next => simp [nextOnce, runSteps, nextClosure, runSteps_filter_next]
    | raise p => simp [nextOnce, runSteps]

theorem callOne_once {σ : Type} (w : σ) (mware : middleware σ) :
    middlewareChain.callOne w mware.once = middlewareChain.callOne w mware := by
  simp [middlewareChain.callOne, middleware.once, runSteps_nextOnce]

theorem loop_once {σ : Type} (l : List (middleware σ)) (w : σ) :
    (middlewareChain.loop ((l.map middleware.once).map some) w).world
        = (middlewareChain.loop (l.map some) w).world
      ∧ (middlewareChain.loop ((l.map middleware.once).map some) w).panic
        = (middlewareChain.loop (l.map some) w).panic
      ∧ (middlewareChain.loop ((l.map middleware.once).map some) w).log.map Invocation.outcome
        = (middlewareChain.loop (l.map some) w).log.map Invocation.outcome := by
  induction l generalizing w with
  | nil => simp [middlewareChain.loop]
  | cons m rest ih =>
    simp only [List.map_cons, middlewareChain.loop, callOne_once]
    rcases hc : middlewareChain.callOne w m with ⟨w', (q | (_ | _))⟩
    · simp
    · simp
    · simpa using ih w'

/-- C27: a middleware that invokes its continuation two or more times acts on
the chain as the one that invokes it once: with every repeated invocation left
out of every middleware, `middlewareChain.call` leaves the same world, ends
with the same panic or none, and executes as many middlewares with the same
outcomes; and the executed middlewares are an initial segment of the sequence,
so the middleware that follows is executed once, not once per invocation. -/
theorem repeated_next_counts_once {σ : Type} (chain cascade : List (middleware σ)) (w : σ) :
    (middlewareChain.call (chain.map middleware.once) w (cascade.map middleware.once)).world
        = (middlewareChain.call chain w cascade).world
      ∧ (middlewareChain.call (chain.map middleware.once) w (cascade.map middleware.once)).panic
        = (middlewareChain.call chain w cascade).panic
      ∧ (middlewareChain.call (chain.map middleware.once) w
            (cascade.map middleware.once)).log.map Invocation.outcome
        = (middlewareChain.call chain w cascade).log.map Invocation.outcome
      ∧ (middlewareChain.call chain w cascade).log.map Invocation.mware <+: chain ++ cascade
      ∧ (middlewareChain.call [] [] [passingTwice "a", passing "b"]).world = ["a", "b"] := by
  have h := loop_once (chain ++ cascade) w
  unfold middlewareChain.call
  rw [all_eq_append, all_eq_append, ← List.map_append]
  refine ⟨h.1, h.2.1, h.2.2, ?_, rfl⟩
  have hp := call_log_initial chain cascade w
  unfold middlewareChain.call at hp
  rw [all_eq_append] at hp
  exact hp

/-! ## The body: which requests are parsed, what is returned, and the cache after a failure -/

theorem wrapBody_undefined_without_json_body_aux (unmarshal : Unmarshal) (req : Request)
    (h : req.ContentLength = 0
      ∨ HasPrefix (Header.Get req.Header "Content-Type") "application/json" = false) :
    wrapBody unmarshal req = (req, .ok Value.undefined) := by
  unfold wrapBody
  rcases h with h | h
  · simp [h]
  · simp [h]

theorem wrapBody_of_json (unmarshal : Unmarshal) (req : Request)
    (hlen : req.ContentLength ≠ 0)
    (hct : HasPrefix (Header.Get req.Header "Content-Type") "application/json" = true) :
    (wrapBody unmarshal req).1.Body.reads = req.Body.reads + 1
      ∧ (wrapBody unmarshal req).2
        = (match req.Body.err with
           | some e => .error (throw e)
           | none =>
             match unmarshal req.Body.data (some []) with
             | (_, some e) => .error (throw e)
             | (out, none) => .ok (ToValueMap out)) := by
  simp only [wrapBody, hlen, hct, ReadAll]
  cases he : req.Body.err with
  | some e => simp [Body.Close, hlen]
  | none =>
    rcases hu : unmarshal req.Body.data (some []) with ⟨out, (_ | e)⟩
    · simp [must, hlen, Body.Close]
    · simp [must, hlen, Body.Close]

/-- C28: for a non-zero content length, `wrapBody` reads the body and hands it to
the parser exactly when the Content-Type header value begins with the characters
`application/json`, compared as they are, and returns `undefined` with the body
untouched otherwise; so `application/json; charset=utf-8` and
`application/jsonx` are parsed, `Application/JSON` and `text/json` are not. -/
theorem wrapBody_parses_on_case_sensitive_start (unmarshal : Unmarshal) (req : Request)
    (hlen : req.ContentLength ≠ 0) :
    (HasPrefix (Header.Get req.Header "Content-Type") "application/json" = true →
        (wrapBody unmarshal req).1.Body.reads = req.Body.reads + 1
          ∧ (req.Body.err = none →
              (wrapBody unmarshal req).2
                = (match unmarshal req.Body.data (some []) with
                   | (_, some e) => .error (throw e)
                   | (out, none) => .ok (ToValueMap out))))
      ∧ (HasPrefix (Header.Get req.Header "Content-Type") "application/json" = false →
          wrapBody unmarshal req = (req, .ok Value.undefined))
      ∧ HasPrefix "application/json; charset=utf-8" "application/json" = true
      ∧ HasPrefix "application/jsonx" "application/json" = true
      ∧ HasPrefix "Application/JSON" "application/json" = false
      ∧ HasPrefix "text/json" "application/json" = false := by
  refine ⟨?_, ?_, by decide, by decide, by decide, by decide⟩
  · intro hct
    obtain ⟨h1, h2⟩ := wrapBody_of_json unmarshal req hlen hct
    refine ⟨h1, ?_⟩
    intro he
    rw [h2, he]
  · intro hct
    simp [wrapBody, hct]

theorem wrapBody_parses_on_case_sensitive_start_witness :
    (bodyRequest "application/jsonx" [123, 125]).ContentLength ≠ 0
      ∧ (wrapBody sampleUnmarshal (bodyRequest "application/jsonx" [123, 125])).2
          = .ok (Value.object [])
      ∧ (wrapBody sampleUnmarshal (bodyRequest "application/json; charset=utf-8" [123, 125])).2
          = .ok (Value.object [])
      ∧ wrapBody sampleUnmarshal (bodyRequest "Application/JSON" [123, 125])
          = (bodyRequest "Application/JSON" [123, 125], .ok Value.undefined)
      ∧ wrapBody sampleUnmarshal (bodyRequest "text/json" [123, 125])
          = (bodyRequest "text/json" [123, 125], .ok Value.undefined) :=
  ⟨by decide,
   ((wrapBody_parses_on_case_sensitive_start sampleUnmarshal
      (bodyRequest "application/jsonx" [123, 125]) (by decide)).1 (by decide)).2 rfl,
   ((wrapBody_parses_on_case_sensitive_start sampleUnmarshal
      (bodyRequest "application/json; charset=utf-8" [123, 125]) (by decide)).1 (by decide)).2 rfl,
   (wrapBody_parses_on_case_sensitive_start sampleUnmarshal
      (bodyRequest "Application/JSON" [123, 125]) (by decide)).2.1 (by decide),
   (wrapBody_parses_on_case_sensitive_start sampleUnmarshal
      (bodyRequest "text/json" [123, 125]) (by decide)).2.1 (by decide)⟩

/-- C29, as the code has it: a JSON body `null` makes `json.Unmarshal` leave the
nil map, and `wrapBody` returns `null`, which is not an empty object. -/
theorem wrapBody_json_null_counterexample :
    (wrapBody sampleUnmarshal (bodyRequest "application/json" [110, 117, 108, 108])).2
        = .ok Value.null
      ∧ (wrapBody sampleUnmarshal (bodyRequest "application/json" [110, 117, 108, 108])).2
        ≠ .ok (Value.object []) := by
  have h : (wrapBody sampleUnmarshal
      (bodyRequest "application/json" [110, 117, 108, 108])).2 = .ok Value.null := rfl
  refine ⟨h, ?_⟩
  rw [h]
  intro hc
  cases hc

/-- C29, amended: every value returned by `wrapBody` is `undefined`, `null` or an
object with string keys. For a JSON request whose body was read, an error of
`json.Unmarshal` (as for a top-level array, string, number or boolean, which do
not fit the map) is raised and nothing is returned, and `null` is returned
exactly when `json.Unmarshal` left the nil map without an error (as for a body
`null`). -/
theorem wrapBody_returns_undefined_null_or_object (unmarshal : Unmarshal) (req : Request) :
    (∀ v, (wrapBody unmarshal req).2 = .ok v →
        v = Value.undefined ∨ v = Value.null ∨ ∃ entries, v = Value.object (ToProps entries))
      ∧ (req.ContentLength ≠ 0 →
          HasPrefix (Header.Get req.Header "Content-Type") "application/json" = true →
          req.Body.err = none →
            (∀ e, (unmarshal req.Body.data (some [])).2 = some e →
                (wrapBody unmarshal req).2 = .error (throw e))
              ∧ ((wrapBody unmarshal req).2 = .ok Value.null ↔
                  unmarshal req.Body.data (some []) = (none, none))) := by
  constructor
  · intro v hv
    by_cases hlen : req.ContentLength = 0
    · have h := (wrapBody_undefined_without_json_body_aux unmarshal req (Or.inl hlen))
      rw [h] at hv
      simp only [Except.ok.injEq] at hv
      exact Or.inl hv.symm
    · by_cases hct : HasPrefix (Header.Get req.Header "Content-Type") "application/json" = true
      · rw [(wrapBody_of_json unmarshal req hlen hct).2] at hv
        cases he : req.Body.err with
        | some e => rw [he] at hv; simp at hv
        | none =>
          rw [he] at hv
          rcases hu : unmarshal req.Body.data (some []) with ⟨out, (_ | e)⟩
          · rw [hu] at hv
            simp only [Except.ok.injEq] at hv
            subst hv
            cases out with
            | none => exact Or.inr (Or.inl rfl)
            | some entries => exact Or.inr (Or.inr ⟨entries, rfl⟩)
          · rw [hu] at hv
            simp at hv
      · have h := (wrapBody_undefined_without_json_body_aux unmarshal req
          (Or.inr (by simpa using hct)))
        rw [h] at hv
        simp only [Except.ok.injEq] at hv
        exact Or.inl hv.symm
  · intro hlen hct he
    have h := (wrapBody_of_json unmarshal req hlen hct).2
    rw [he] at h
    constructor
    · intro e hue
      rw [h]
      rcases hu : unmarshal req.Body.data (some []) with ⟨out, err⟩
      rw [hu] at hue
      simp only at hue
      subst hue
      rfl
    · rw [h]
      rcases hu : unmarshal req.Body.data (some []) with ⟨out, (_ | e)⟩
      · cases out with
        | none => simp [ToValueMap]
        | some entries => simp [ToValueMap]
      · simp

theorem body_after_failure (unmarshal : Unmarshal) (req : Request) (p : Panic)
    (hfail : ((newRequest req).body unmarshal).2 = .error p) :
    ((newRequest req).body unmarshal).1.done Field.body = true
      ∧ ((newRequest req).body unmarshal).1.cache Field.body = none
      ∧ ((newRequest req).body unmarshal).1.runsOf Field.body = 1 := by
  simp only [request.body, onceDo, newRequest, request.done, request.cache,
    request.runsOf] at hfail ⊢
  rcases hw : wrapBody unmarshal req with ⟨r', (q | v)⟩
  · simp
  · rw [hw] at hfail
    simp at hfail

/-- C30: when the first read of `body` on a request view raises, then over any
later sequence of reads on that view every read of `body` returns, without
raising, the cached value that was never assigned (nil); the body stream is not
read again and `wrapBody` is not run again. -/
theorem body_reads_after_failure_return_nil (unmarshal : Unmarshal) (req : Request)
    (p : Panic) (hfail : ((newRequest req).body unmarshal).2 = .error p)
    (fs : List Field) :
    (∀ j : Nat, fs[j]? = some Field.body →
        (request.reads unmarshal ((newRequest req).body unmarshal).1 fs).2[j]?
          = some (Except.ok none))
      ∧ (request.reads unmarshal ((newRequest req).body unmarshal).1 fs).1.Request.Body.reads
          ≤ ((newRequest req).body unmarshal).1.Request.Body.reads
      ∧ (request.reads unmarshal ((newRequest req).body unmarshal).1 fs).1.runsOf Field.body
          = 1 := by
  obtain ⟨hd, hc, hr⟩ := body_after_failure unmarshal req p hfail
  obtain ⟨ha, -, hj, -, he⟩ := reads_spec unmarshal fs ((newRequest req).body unmarshal).1
  refine ⟨?_, ?_, ?_⟩
  · intro j hfj
    rw [hj j Field.body hfj hd, hc]
  · simpa [hd] using he
  · rw [ha Field.body, hr]
    simp [hd]

theorem body_reads_after_failure_return_nil_witness :
    ((newRequest failingRequest).body sampleUnmarshal).2 = .error (.goError (.other "foo"))
      ∧ (request.reads sampleUnmarshal ((newRequest failingRequest).body sampleUnmarshal).1
          [Field.body, Field.query, Field.body]).2[2]? = some (Except.ok none)
      ∧ (request.reads sampleUnmarshal ((newRequest failingRequest).body sampleUnmarshal).1
          [Field.body, Field.query, Field.body]).1.runsOf Field.body = 1 :=
  ⟨rfl,
   (body_reads_after_failure_return_nil sampleUnmarshal failingRequest
      (.goError (.other "foo")) rfl [Field.body, Field.query, Field.body]).1 2 rfl,
   (body_reads_after_failure_return_nil sampleUnmarshal failingRequest
      (.goError (.other "foo")) rfl [Field.body, Field.query, Field.body]).2.2⟩

/-! ## The server: bind failure, the serving loop's log, stop signals, active listeners -/

/-- C21: when the bind of the requested address fails, `listenAndServe` returns
that error in place of a bound address and the server is as it was: no serving
loop is started and the stop channel is the same, so on the server with its
loops nothing changes for a listener already running. -/
theorem listenAndServe_bind_failure_changes_nothing (netListen : Listen) (p : Process)
    (addr : String) (err : GoError) (h : netListen addr = .error err) :
    p.server.listenAndServe netListen addr = (p.server, .error err)
      ∧ (p.server.listenAndServe netListen addr).1.started = p.server.started
      ∧ (p.server.listenAndServe netListen addr).1.stopCh = p.server.stopCh
      ∧ p.step (.listenAndServe netListen addr) = some p := by
  have hs : p.server.listenAndServe netListen addr = (p.server, .error err) := by
    simp [server.listenAndServe, h]
  refine ⟨hs, by rw [hs], by rw [hs], ?_⟩
  simp [Process.step, hs]

theorem listenAndServe_bind_failure_changes_nothing_witness :
    bindInUse ":8080" = .error (.other "bind: address already in use")
      ∧ (newProcess.step (.listenAndServe bindAny ":8080")).bind
          (fun p => p.step (.listenAndServe bindInUse ":8080"))
        = newProcess.step (.listenAndServe bindAny ":8080") :=
  ⟨rfl, by
    have h := (listenAndServe_bind_failure_changes_nothing bindInUse
      { server := { stopCh := 1, started := [⟨":8080", ⟨"127.0.0.1", 8080⟩⟩] }
        loops := [.started], sending := [] }
      ":8080" (.other "bind: address already in use") rfl).2.2.2
    exact h⟩

/-- C23: after a stop signal or a context cancellation, a graceful shutdown that
returns no error makes the serving loop log `server shutdown failed`, with a
nil error: `errors.Is` of a nil error is false for both expected errors. For a
shutdown error that is not nil the failure is logged exactly when the error is
neither deadline-exceeded nor context-cancelled. -/
theorem serve_logs_failure_on_clean_shutdown (is : ErrorsIs) :
    server.serve is .stopCh none
        = [.error none "server shutdown failed", .debug "server stopped"]
      ∧ server.serve is .ctxDone none
        = [.error none "server shutdown failed", .debug "server stopped"]
      ∧ (∀ e, LogLine.error (some e) "server shutdown failed"
            ∈ server.serve is .stopCh (some e)
          ↔ (is e .DeadlineExceeded = false ∧ is e .Canceled = false)) := by
  refine ⟨rfl, rfl, ?_⟩
  intro e
  simp only [server.serve, errorsIs]
  by_cases h1 : is e .DeadlineExceeded = true <;> by_cases h2 : is e .Canceled = true <;>
    simp [h1, h2]

theorem step_keeps_unheard (ch : Nat) (p q : Process) (a : Action)
    (hstep : p.step a = some q)
    (h1 : ∀ ph ∈ p.loops, ph ≠ Phase.selecting ch)
    (h2 : (∀ ph ∈ p.loops, ph ≠ Phase.started) ∨ ch < p.server.stopCh)
    (h3 : ch ≤ p.server.stopCh) :
    (∀ ph ∈ q.loops, ph ≠ Phase.selecting ch)
      ∧ ((∀ ph ∈ q.loops, ph ≠ Phase.started) ∨ ch < q.server.stopCh)
      ∧ ch ≤ q.server.stopCh
      ∧ p.blocked ch ≤ q.blocked ch := by
  cases a with
  | listenAndServe netListen addr =>
    simp only [Process.step, server.listenAndServe] at hstep
    cases hl : netListen addr with
    | error err =>
      rw [hl] at hstep
      simp only [Option.some.injEq] at hstep
      subst hstep
      exact ⟨h1, h2, h3, le_refl _⟩
    | ok tcp =>
      rw [hl] at hstep
      simp only [Option.some.injEq] at hstep
      subst hstep
      refine ⟨?_, Or.inr (Nat.lt_succ_of_le h3), Nat.le_succ_of_le h3, le_refl _⟩
      intro ph hph
      simp only [List.mem_append, List.mem_singleton] at hph
      rcases hph with hph | hph
      · exact h1 ph hph
      · rw [hph]
        simp
  | shutdown =>
    simp only [Process.step, server.shutdown, Option.some.injEq] at hstep
    subst hstep
    refine ⟨h1, h2, h3, ?_⟩
    simp only [Process.blocked, List.count_append]
    omega
  | select i =>
    simp only [Process.step] at hstep
    cases hi : p.loops[i]? with
    | none => rw [hi] at hstep; simp at hstep
    | some ph =>
      rw [hi] at hstep
      cases ph with
      | started =>
        simp only [Option.some.injEq] at hstep
        subst hstep
        have hlt : ch < p.server.stopCh := by
          rcases h2 with h2 | h2
          · exact absurd rfl (h2 _ (List.getElem?_mem hi))
          · exact h2
        refine ⟨?_, Or.inr hlt, h3, le_refl _⟩
        intro ph hph
        rcases List.mem_or_eq_of_mem_set hph with hph | hph
        · exact h1 ph hph
        · rw [hph]
          intro hc
          injection hc with hc
          omega
      | selecting c => simp at hstep
      | stopped => simp at hstep
  | receive i =>
    simp only [Process.step] at hstep
    cases hi : p.loops[i]? with
    | none => rw [hi] at hstep; simp at hstep
    | some ph =>
      rw [hi] at hstep
      cases ph with
      | started => simp at hstep
      | stopped => simp at hstep
      | selecting c =>
        simp only at hstep
        split at hstep
        · simp only [Option.some.injEq] at hstep
          subst hstep
          have hne : c ≠ ch := by
            intro hc
            subst hc
            exact h1 _ (List.getElem?_mem hi) rfl
          refine ⟨?_, ?_, h3, ?_⟩
          · intro ph hph
            rcases List.mem_or_eq_of_mem_set hph with hph | hph
            · exact h1 ph hph
            · rw [hph]; simp
          · rcases h2 with h2 | h2
            · left
              intro ph hph
              rcases List.mem_or_eq_of_mem_set hph with hph | hph
              · exact h2 ph hph
              · rw [hph]; simp
            · exact Or.inr h2
          · simp only [Process.blocked]
            rw [List.count_erase_of_ne (Ne.symm hne)]
        · simp at hstep
  | leave i =>
    simp only [Process.step] at hstep
    cases hi : p.loops[i]? with
    | none => rw [hi] at hstep; simp at hstep
    | some ph =>
      rw [hi] at hstep
      cases ph with
      | started => simp at hstep
      | stopped => simp at hstep
      | selecting c =>
        simp only [Option.some.injEq] at hstep
        subst hstep
        refine ⟨?_, ?_, h3, le_refl _⟩
        · intro ph hph
          rcases List.mem_or_eq_of_mem_set hph with hph | hph
          · exact h1 ph hph
          · rw [hph]; simp
        · rcases h2 with h2 | h2
          · left
            intro ph hph
            rcases List.mem_or_eq_of_mem_set hph with hph | hph
            · exact h2 ph hph
            · rw [hph]; simp
          · exact Or.inr h2

theorem run_keeps_unheard (ch : Nat) (acts : List Action) : ∀ (p q : Process),
    p.run acts = some q →
    (∀ ph ∈ p.loops, ph ≠ Phase.selecting ch) →
    ((∀ ph ∈ p.loops, ph ≠ Phase.started) ∨ ch < p.server.stopCh) →
    ch ≤ p.server.stopCh →
    p.blocked ch ≤ q.blocked ch := by
  induction acts with
  | nil =>
    intro p q hrun _ _ _
    simp only [Process.run, Option.some.injEq] at hrun
    subst hrun
    exact le_refl _
  | cons a rest ih =>
    intro p q hrun h1 h2 h3
    simp only [Process.run] at hrun
    cases hs : p.step a with
    | none => rw [hs] at hrun; simp at hrun
    | some r =>
      rw [hs] at hrun
      obtain ⟨k1, k2, k3, k4⟩ := step_keeps_unheard ch p r a hs h1 h2 h3
      exact le_trans k4 (ih r q hrun k1 k2 k3)

/-- C22, as the code has it: `shutdown` on a new server offers its value on the
stop channel made by `newServer`, which no serving loop receives from, neither
at once nor after a later `listen`, whose loop waits on a new channel. -/
theorem shutdown_before_listen_counterexample :
    newProcess.loops = []
      ∧ (server.shutdown newProcess).sending = [0]
      ∧ (server.shutdown newProcess).step (.receive 0) = none
      ∧ ((server.shutdown newProcess).run
          [.listenAndServe bindAny ":8080", .select 0]).map Process.loops
          = some [Phase.selecting 1]
      ∧ (server.shutdown newProcess).run
          [.listenAndServe bindAny ":8080", .select 0, .receive 0] = none := by
  decide

/-- C22, amended: `shutdown` returns when a serving loop receives the value it
offers on the stop channel, and otherwise stays blocked in its send. With a loop
waiting on the current stop channel, that loop can receive and the call
returns, the loop being stopped. Called when no loop waits on the current stop
channel and none is on its way to its `select` (before any listen, after the
loop has left, or a second time for the same listen), the call never returns,
whatever is done on the server afterwards. -/
theorem shutdown_returns_only_to_a_receiver (p : Process) :
    (∀ i : Nat, p.loops[i]? = some (Phase.selecting p.server.stopCh) →
        ∃ q, (server.shutdown p).step (.receive i) = some q
          ∧ q.loops = p.loops.set i Phase.stopped
          ∧ q.blocked p.server.stopCh = p.blocked p.server.stopCh)
      ∧ ((∀ ph ∈ p.loops, ph ≠ Phase.started ∧ ph ≠ Phase.selecting p.server.stopCh) →
          ∀ (acts : List Action) (q : Process), (server.shutdown p).run acts = some q →
            p.blocked p.server.stopCh + 1 ≤ q.blocked p.server.stopCh) := by
  constructor
  · intro i hi
    have hmem : p.server.stopCh ∈ p.sending ++ [p.server.stopCh] := by simp
    refine ⟨{ server := p.server, loops := p.loops.set i Phase.stopped
              sending := (p.sending ++ [p.server.stopCh]).erase p.server.stopCh }, ?_, rfl, ?_⟩
    · simp only [Process.step, server.shutdown, hi, hmem, if_true]
    · simp only [Process.blocked]
      rw [List.count_erase_self, List.count_append]
      simp
  · intro hidle acts q hrun
    have h := run_keeps_unheard p.server.stopCh acts (server.shutdown p) q hrun
      (fun ph hph => (hidle ph hph).2) (Or.inl (fun ph hph => (hidle ph hph).1)) (le_refl _)
    have hb : (server.shutdown p).blocked p.server.stopCh = p.blocked p.server.stopCh + 1 := by
      simp [Process.blocked, server.shutdown, List.count_append]
    omega

theorem shutdown_returns_only_to_a_receiver_witness :
    (∀ ph ∈ newProcess.loops,
        ph ≠ Phase.started ∧ ph ≠ Phase.selecting newProcess.server.stopCh)
      ∧ (server.shutdown newProcess).run
          [.listenAndServe bindAny ":8080", .select 0, .leave 0]
        = some { server := { stopCh := 1, started := [⟨":8080", ⟨"127.0.0.1", 8080⟩⟩] }
                 loops := [Phase.stopped], sending := [0] }
      ∧ newProcess.blocked newProcess.server.stopCh + 1
        ≤ Process.blocked
            { server := { stopCh := 1, started := [⟨":8080", ⟨"127.0.0.1", 8080⟩⟩] }
              loops := [Phase.stopped], sending := [0] } newProcess.server.stopCh :=
  ⟨by decide, by decide,
   (shutdown_returns_only_to_a_receiver newProcess).2 (by decide)
     [.listenAndServe bindAny ":8080", .select 0, .leave 0] _ (by decide)⟩

theorem countP_set {α : Type} (f : α → Bool) (l : List α) : ∀ (i : Nat) (x y : α),
    l[i]? = some x →
    (l.set i y).countP f + (if f x then 1 else 0) = l.countP f + (if f y then 1 else 0) := by
  induction l with
  | nil => intro i x y h; simp at h
  | cons a rest ih =>
    intro i x y h
    cases i with
    | zero =>
      simp only [List.getElem?_cons_zero, Option.some.injEq] at h
      subst h
      simp only [List.set_cons_zero, List.countP_cons]
      omega
    | succ i =>
      simp only [List.getElem?_cons_succ] at h
      have := ih i x y h
      simp only [List.set_cons_succ, List.countP_cons]
      omega

theorem step_active (p q : Process) (a : Action) (hstep : p.step a = some q) :
    q.active + a.stops = p.active + a.starts := by
  cases a with
  | listenAndServe netListen addr =>
    simp only [Process.step, server.listenAndServe] at hstep
    cases hl : netListen addr with
    | error err =>
      rw [hl] at hstep
      simp only [Option.some.injEq] at hstep
      subst hstep
      simp [Process.active, Action.stops, Action.starts, hl]
    | ok tcp =>
      rw [hl] at hstep
      simp only [Option.some.injEq] at hstep
      subst hstep
      simp [Process.active, Action.stops, Action.starts, hl, List.countP_append]
  | shutdown =>
    simp only [Process.step, server.shutdown, Option.some.injEq] at hstep
    subst hstep
    simp [Process.active, Action.stops, Action.starts]
  | select i =>
    simp only [Process.step] at hstep
    cases hi : p.loops[i]? with
    | none => rw [hi] at hstep; simp at hstep
    | some ph =>
      rw [hi] at hstep
      cases ph with
      | started =>
        simp only [Option.some.injEq] at hstep
        subst hstep
        have h := countP_set (fun ph => ph != Phase.stopped) p.loops i Phase.started
          (Phase.selecting p.server.stopCh) hi
        simp only [Process.active, Action.stops, Action.starts]
        simpa using h
      | selecting c => simp at hstep
      | stopped => simp at hstep
  | receive i =>
    simp only [Process.step] at hstep
    cases hi : p.loops[i]? with
    | none => rw [hi] at hstep; simp at hstep
    | some ph =>
      rw [hi] at hstep
      cases ph with
      | started => simp at hstep
      | stopped => simp at hstep
      | selecting c =>
        simp only at hstep
        split at hstep
        · simp only [Option.some.injEq] at hstep
          subst hstep
          have h := countP_set (fun ph => ph != Phase.stopped) p.loops i (Phase.selecting c)
            Phase.stopped hi
          simp only [Process.active, Action.stops, Action.starts]
          simpa using h
        · simp at hstep
  | leave i =>
    simp only [Process.step] at hstep
    cases hi : p.loops[i]? with
    | none => rw [hi] at hstep; simp at hstep
    | some ph =>
      rw [hi] at hstep
      cases ph with
      | started => simp at hstep
      | stopped => simp at hstep
      | selecting c =>
        simp only [Option.some.injEq] at hstep
        subst hstep
        have h := countP_set (fun ph => ph != Phase.stopped) p.loops i (Phase.selecting c)
          Phase.stopped hi
        simp only [Process.active, Action.stops, Action.starts]
        simpa using h

/-- C25, as the code has it: a second `listenAndServe` that succeeds while the
first listener is serving leaves two serving loops active, each on its own
address and its own stop channel. -/
theorem two_active_listeners_counterexample :
    (newProcess.run [.listenAndServe bindAny ":8080", .select 0,
        .listenAndServe bindAny ":0", .select 1]).map Process.active = some 2
      ∧ (newProcess.run [.listenAndServe bindAny ":8080", .select 0,
        .listenAndServe bindAny ":0", .select 1]).map Process.loops
          = some [Phase.selecting 1, Phase.selecting 2]
      ∧ (newProcess.run [.listenAndServe bindAny ":8080", .select 0,
        .listenAndServe bindAny ":0", .select 1]).map
          (fun p => p.server.started.map Serving.bound)
          = some [⟨"127.0.0.1", 8080⟩, ⟨"127.0.0.1", 49152⟩] := by
  decide

/-- C25, amended: over any sequence of `listenAndServe` and `shutdown` calls and
moves of the serving loops on one server, the number of active serving loops is
the number there was, plus the `listenAndServe` calls whose bind succeeded,
minus the loops that left their `select`: a `listenAndServe` that succeeds
starts one loop and stops none, also while an earlier listener is serving. -/
theorem active_listeners_count (acts : List Action) (p q : Process)
    (hrun : p.run acts = some q) :
    q.active + (acts.map Action.stops).sum = p.active + (acts.map Action.starts).sum := by
  induction acts generalizing p with
  | nil =>
    simp only [Process.run, Option.some.injEq] at hrun
    subst hrun
    simp
  | cons a rest ih =>
    simp only [Process.run] at hrun
    cases hs : p.step a with
    | none => rw [hs] at hrun; simp at hrun
    | some r =>
      rw [hs] at hrun
      have h1 := step_active p r a hs
      have h2 := ih r hrun
      simp only [List.map_cons, List.sum_cons]
      omega

theorem active_listeners_count_witness :
    newProcess.run [.listenAndServe bindAny ":8080", .select 0, .shutdown, .receive 0,
        .listenAndServe bindAny ":0"]
        = some { server := { stopCh := 2
                             started := [⟨":8080", ⟨"127.0.0.1", 8080⟩⟩,
                               ⟨":0", ⟨"127.0.0.1", 49152⟩⟩] }
                 loops := [Phase.stopped, Phase.started], sending := [] }
      ∧ Process.active
            { server := { stopCh := 2
                          started := [⟨":8080", ⟨"127.0.0.1", 8080⟩⟩,
                            ⟨":0", ⟨"127.0.0.1", 49152⟩⟩] }
              loops := [Phase.stopped, Phase.started], sending := [] }
          + ([Action.listenAndServe bindAny ":8080", .select 0, .shutdown, .receive 0,
              .listenAndServe bindAny ":0"].map Action.stops).sum
        = newProcess.active
          + ([Action.listenAndServe bindAny ":8080", .select 0, .shutdown, .receive 0,
              .listenAndServe bindAny ":0"].map Action.starts).sum :=
  ⟨by decide,
   active_listeners_count [.listenAndServe bindAny ":8080", .select 0, .shutdown, .receive 0,
     .listenAndServe bindAny ":0"] newProcess _ (by decide)⟩

/-! ## `runSync`: one execution of the unit of work, completed before the return -/

theorem sync_step_sound {σ : Type} (runner : Runner) (fn : σ → σ) (w : σ) (s s' : Sync σ)
    (t : Thread) (hs : s.sound runner fn w) (hstep : s.step runner fn t = some s') :
    s'.sound runner fn w ∧ s'.ahead + 1 = s.ahead := by
  obtain ⟨c, wk, d, wd, n⟩ := s
  cases t <;> cases c <;> cases wk <;> cases runner <;>
    simp_all [Sync.step, Sync.workStep, Sync.sound, Sync.ahead] <;>
    (subst hstep; simp_all [Sync.sound, Sync.ahead])

theorem sync_progress {σ : Type} (runner : Runner) (fn : σ → σ) (w : σ) (s : Sync σ)
    (hone : runner.invocations = 1) (hs : s.sound runner fn w)
    (hc : s.caller ≠ .returned) :
    ∃ t s', s.step runner fn t = some s' := by
  obtain ⟨c, wk, d, wd, n⟩ := s
  cases c <;> cases wk <;> cases runner <;>
    simp_all [Sync.sound, Runner.invocations] <;>
    first
    | exact ⟨.caller, _, rfl⟩
    | exact ⟨.other, _, rfl⟩

theorem sync_run_sound {σ : Type} (runner : Runner) (fn : σ → σ) (w : σ)
    (sched : List Thread) : ∀ (s s' : Sync σ), s.sound runner fn w →
    Sync.run runner fn s sched = some s' → s'.sound runner fn w := by
  induction sched with
  | nil =>
    intro s s' hs hrun
    simp only [Sync.run, Option.some.injEq] at hrun
    subst hrun
    exact hs
  | cons t rest ih =>
    intro s s' hs hrun
    simp only [Sync.run] at hrun
    cases hst : s.step runner fn t with
    | none => rw [hst] at hrun; simp at hrun
    | some r =>
      rw [hst] at hrun
      exact ih r s' (sync_step_sound runner fn w s r t hs hst).1 hrun

theorem sync_reaches_return {σ : Type} (runner : Runner) (fn : σ → σ) (w : σ)
    (hone : runner.invocations = 1) (n : Nat) : ∀ (s : Sync σ), s.sound runner fn w →
    s.ahead = n →
    ∃ sched s', Sync.run runner fn s sched = some s' ∧ s'.caller = .returned := by
  induction n with
  | zero =>
    intro s hs hn
    refine ⟨[], s, rfl, ?_⟩
    obtain ⟨c, wk, d, wd, k⟩ := s
    cases c <;> cases wk <;> simp_all [Sync.ahead]
  | succ n ih =>
    intro s hs hn
    by_cases hc : s.caller = .returned
    · exact ⟨[], s, rfl, hc⟩
    · obtain ⟨t, r, hst⟩ := sync_progress runner fn w s hone hs hc
      obtain ⟨hr, ha⟩ := sync_step_sound runner fn w s r t hs hst
      obtain ⟨sched, s', hrun, hret⟩ := ih r hr (by omega)
      refine ⟨t :: sched, s', ?_, hret⟩
      simp only [Sync.run, hst]
      exact hrun

/-- C24: for every runner that invokes the unit of work once, in place or on
another thread, and for every order in which the threads move, `runSync(fn)`
has executed `fn` once at most at any moment, and when it has returned `fn` has
been executed exactly once and has completed; and from every state the call
passes through there is a way on to its return, so it does return. -/
theorem runSync_runs_fn_once_before_returning {σ : Type} (runner : Runner) (fn : σ → σ)
    (w : σ) (hone : runner.invocations = 1) (sched : List Thread) (s : Sync σ)
    (hrun : Sync.run runner fn (Sync.start w) sched = some s) :
    s.calls ≤ 1
      ∧ (s.caller = .returned → s.calls = 1 ∧ s.work = .finished ∧ s.world = fn w)
      ∧ (s.calls = 0 → s.world = w)
      ∧ ∃ more s', Sync.run runner fn s more = some s' ∧ s'.caller = .returned := by
  have h0 : (Sync.start w).sound runner fn w := by simp [Sync.start, Sync.sound]
  have hs := sync_run_sound runner fn w sched (Sync.start w) s h0 hrun
  refine ⟨?_, ?_, ?_, sync_reaches_return runner fn w hone s.ahead s hs rfl⟩
  · obtain ⟨c, wk, d, wd, k⟩ := s
    cases c <;> cases wk <;> simp_all [Sync.sound]
  · intro hc
    obtain ⟨c, wk, d, wd, k⟩ := s
    cases c <;> cases wk <;> simp_all [Sync.sound]
  · intro hc
    obtain ⟨c, wk, d, wd, k⟩ := s
    cases c <;> cases wk <;> simp_all [Sync.sound]

theorem runSync_runs_fn_once_before_returning_witness :
    Runner.onThread.invocations = 1
      ∧ Sync.run Runner.onThread (fun n : Nat => n + 1) (Sync.start 0)
          [.caller, .caller, .other, .other, .other, .caller]
        = some { caller := .returned, work := .finished, done := 0, world := 1, calls := 1 }
      ∧ ((1 : Nat) = 1 ∧ Work.finished = Work.finished ∧ (1 : Nat) = (fun n : Nat => n + 1) 0) :=
  ⟨rfl, rfl,
   (runSync_runs_fn_once_before_returning Runner.onThread (fun n : Nat => n + 1) 0 rfl
      [.caller, .caller, .other, .other, .other, .caller]
      { caller := .returned, work := .finished, done := 0, world := 1, calls := 1 } rfl).2.1 rfl⟩

end Muxpress
